import Mathlib

/-!
# Rotation file naming of `logger-go` (`src/log.go`)

A shallow embedding of `log.go`: the configuration record, the logger state, `Init`,
`check` / `getLogger`, the facade functions, `timeZero` and `getLogFileName`, together with the
parts of the Go standard library (`time`, `strconv`) and of `spf13/cast` that `getLogFileName`
runs through.

Conventions of the embedding.

* A `time.Time` is the triple of its Unix second, its nanosecond and its location; a location
  is its table of zone transitions, and `time.Date` looks the offset up in it as Go does.
* A `time.Duration` is an `Int` number of nanoseconds.
* `time.Now().Local()` is an input of the function that reads the clock.
* `Time.Format`, `zap.Config.Build` and `(*zap.Logger).Sync` are inputs (`format`, `build`,
  `sync`); nothing is assumed of them.
* Strings that are scanned byte by byte (`Duration.String`) are lists of characters.
* Go integers are `Int`; where a value is a 64-bit `time.Duration` the theorems say so with the
  hypothesis `d < 2 ^ 63`.
-/

namespace LoggerGo

/-! ## Go standard library: calendar arithmetic of package `time` -/

/-- Table `daysBefore` of package `time`: `daysBefore i` is the number of days of a non-leap year
before month `i + 1` starts. -/
def daysBefore (i : Int) : Int :=
  if i ≤ 0 then 0 else if i = 1 then 31 else if i = 2 then 59 else if i = 3 then 90
  else if i = 4 then 120 else if i = 5 then 151 else if i = 6 then 181 else if i = 7 then 212
  else if i = 8 then 243 else if i = 9 then 273 else if i = 10 then 304 else if i = 11 then 334
  else 365

/-- Function `isLeap` of package `time`. -/
def isLeap (year : Int) : Bool :=
  year % 4 = 0 && (year % 100 ≠ 0 || year % 400 = 0)

/-- Function `daysSinceEpoch` of package `time`, counted from 1 January of year 1 (Go counts from
a year that differs from year 1 by a multiple of 400, to stay unsigned). -/
def daysSinceEpoch (year : Int) : Int :=
  let y := year - 1
  let n := y / 400
  let y := y - 400 * n
  let d := 146097 * n
  let n := y / 100
  let y := y - 100 * n
  let d := d + 36524 * n
  let n := y / 4
  let y := y - 4 * n
  let d := d + 1461 * n
  let n := y
  d + 365 * n

/-- First half of `absDate` of package `time`: the year and the zero-based day of the year of a
day number counted from 1 January of year 1. -/
def absYear (d : Int) : Int × Int :=
  let n := d / 146097
  let y := 400 * n
  let d := d - 146097 * n
  let n := d / 36524
  let n := n - n / 4
  let y := y + 100 * n
  let d := d - 36524 * n
  let n := d / 1461
  let y := y + 4 * n
  let d := d - 1461 * n
  let n := d / 365
  let n := n - n / 4
  let y := y + n
  let d := d - 365 * n
  (y + 1, d)

/-- Second half of `absDate` of package `time`: month (1 to 12) and day of the month of the
zero-based day `yday` of `year`. -/
def monthDay (year yday : Int) : Int × Int :=
  if isLeap year && yday = 31 + 29 - 1 then (2, 29)
  else
    let day := if isLeap year && yday > 31 + 29 - 1 then yday - 1 else yday
    let month := day / 31
    let e := daysBefore (month + 1)
    if day ≥ e then (month + 2, day - e + 1)
    else (month + 1, day - daysBefore month + 1)

/-- Function `norm` of package `time`: carry `lo` into `hi` so that `0 ≤ lo < base`. -/
def norm (hi lo base : Int) : Int × Int :=
  (hi + lo / base, lo % base)

/-- Seconds from 1 January of year 1 to the Unix epoch (`unixToInternal` of package `time`). -/
def unixToInternal : Int := 62135596800

/-- Sentinel `alpha` of package `time`: the start of the first zone period. -/
def alpha : Int := -9223372036854775808

/-- Sentinel `omega` of package `time`: the end of the last zone period. -/
def omega : Int := 9223372036854775807

/-- A `time.Location`: the offset (seconds east of UTC) in force before the first transition, and
the transitions in ascending order, each the Unix second it happens at and the offset in force
from then on. The list stands for the zone table together with the transitions its extend rule
yields. `time.UTC` and a `time.FixedZone` have no transition. -/
structure Location where
  base : Int
  tx : List (Int × Int)
deriving DecidableEq, Repr

/-- The search of `Location.lookup`, from the period that starts at `start` with offset `off`:
the offset in force at `sec` and the bounds `[start, end)` of its period. (Go searches the sorted
table by bisection; the scan from the front finds the same entry.) -/
def lookupFrom (off start : Int) : List (Int × Int) → Int → Int × Int × Int
  | [], _ => (off, start, omega)
  | (w, o) :: rest, sec => if sec < w then (off, start, w) else lookupFrom o w rest sec

/-- Method `Location.lookup`: offset, start and end of the zone period of the Unix second
`sec`. -/
def Location.lookup (l : Location) (sec : Int) : Int × Int × Int :=
  lookupFrom l.base alpha l.tx sec

/-- A location with one offset for all time (`time.FixedZone`). -/
def Location.fixed (off : Int) : Location := { base := off, tx := [] }

/-- The location `time.UTC`. -/
def UTC : Location := Location.fixed 0

/-- A `time.Time`: Unix second, nanosecond within the second, and location. -/
structure Time where
  sec : Int
  nsec : Int
  loc : Location
deriving DecidableEq, Repr

namespace Time

/-- The offset in force at the instant `t` in the location of `t`. -/
def off (t : Time) : Int := (t.loc.lookup t.sec).1

/-- Method `abs`: seconds since 1 January of year 1, on the wall clock of the location. -/
def abs (t : Time) : Int := t.sec + t.off + unixToInternal

/-- Method `Unix`. -/
def Unix (t : Time) : Int := t.sec

/-- Method `IsZero`: the instant is 1 January of year 1, 00:00:00 UTC. -/
def IsZero (t : Time) : Bool := t.sec = -unixToInternal && t.nsec = 0

/-- Method `Year`. -/
def Year (t : Time) : Int := (absYear (t.abs / 86400)).1

/-- Method `Month`. -/
def Month (t : Time) : Int := (monthDay t.Year (absYear (t.abs / 86400)).2).1

/-- Method `Day`. -/
def Day (t : Time) : Int := (monthDay t.Year (absYear (t.abs / 86400)).2).2

/-- Method `Hour`. -/
def Hour (t : Time) : Int := t.abs % 86400 / 3600

/-- Method `Minute`. -/
def Minute (t : Time) : Int := t.abs % 3600 / 60

/-- Method `Second`. -/
def Second (t : Time) : Int := t.abs % 60

/-- Method `Location`. -/
def Location (t : Time) : LoggerGo.Location := t.loc

end Time

/-- Function `time.Date`: out-of-range values are normalised and the day number is built from
`daysSinceEpoch`, `daysBefore` and the leap day; that gives the wall-clock second. The zone
offset is looked up at the wall-clock second read as UTC, and looked up again at the instant it
leads to when that instant lies outside the period found; the offset is then subtracted. Near a
transition the result can show another wall clock than the one asked for. -/
def Date (year month day hour min sec nsec : Int) (loc : Location) : Time :=
  let (year, m) := norm year (month - 1) 12
  let month := m + 1
  let (sec, nsec) := norm sec nsec 1000000000
  let (min, sec) := norm min sec 60
  let (hour, min) := norm hour min 60
  let (day, hour) := norm day hour 24
  let d := daysSinceEpoch year
  let d := d + daysBefore (month - 1)
  let d := if isLeap year && month ≥ 3 then d + 1 else d
  let d := d + (day - 1)
  let abs := d * 86400 + (hour * 3600 + min * 60 + sec)
  let unix := abs - unixToInternal
  let z := loc.lookup unix
  let offset :=
    if z.1 ≠ 0 then
      if unix - z.1 < z.2.1 ∨ unix - z.1 ≥ z.2.2 then (loc.lookup (unix - z.1)).1 else z.1
    else z.1
  { sec := unix - offset, nsec := nsec, loc := loc }

/-- The zero `time.Time`. -/
def zeroTime : Time := { sec := -unixToInternal, nsec := 0, loc := UTC }

/-! ## Go standard library: `Duration.String` -/

/-- Constant `time.Second`, in nanoseconds. -/
def Second : Int := 1000000000

/-- Constant `time.Hour`, in nanoseconds. -/
def Hour : Int := 3600000000000

/-- Constant `time.Minute`, in nanoseconds. -/
def Minute : Int := 60000000000

/-- Decimal digit `byte(v) + '0'`. -/
def digitChar (v : Nat) : Char := Char.ofNat (v + 48)

/-- Loop of `fmtInt`: the digits of `v`, least significant first, go in front of `buf`. -/
def fmtIntLoop : Nat → Nat → List Char → List Char
  | 0, _, buf => buf
  | fuel + 1, v, buf => if v = 0 then buf else fmtIntLoop fuel (v / 10) (digitChar (v % 10) :: buf)

/-- Function `fmtInt` of package `time`: `v` in decimal in front of `buf`. The loop runs once per
digit, so `v` iterations are always enough. -/
def fmtInt (buf : List Char) (v : Nat) : List Char :=
  if v = 0 then '0' :: buf else fmtIntLoop v v buf

/-- Loop of `fmtFrac`: `prec` digits, trailing zeros omitted. -/
def fmtFracLoop : Nat → List Char → Nat → Bool → List Char × Nat × Bool
  | 0, buf, v, print => (buf, v, print)
  | prec + 1, buf, v, print =>
    let digit := v % 10
    let print := print || digit ≠ 0
    fmtFracLoop prec (if print then digitChar digit :: buf else buf) (v / 10) print

/-- Function `fmtFrac` of package `time`: the fraction `v / 10^prec` in front of `buf`, and
`v / 10^prec`. -/
def fmtFrac (buf : List Char) (v : Nat) (prec : Nat) : List Char × Nat :=
  let (buf, v, print) := fmtFracLoop prec buf v false
  (if print then '.' :: buf else buf, v)

/-- Method `Duration.String`. -/
def Duration.String (d : Int) : List Char :=
  let u := d.natAbs
  let neg := decide (d < 0)
  let w : List Char :=
    if u < 1000000000 then
      if u = 0 then ['0', 's']
      else
        let (unit, prec) : List Char × Nat :=
          if u < 1000 then (['n', 's'], 0)
          else if u < 1000000 then (['µ', 's'], 3)
          else (['m', 's'], 6)
        let (w, u) := fmtFrac unit u prec
        fmtInt w u
    else
      let (w, u) := fmtFrac ['s'] u 9
      let w := fmtInt w (u % 60)
      let u := u / 60
      if u > 0 then
        let w := fmtInt ('m' :: w) (u % 60)
        let u := u / 60
        if u > 0 then fmtInt ('h' :: w) u else w
      else w
  if neg then '-' :: w else w

/-! ## `strconv.ParseInt` and `cast.ToInt` -/

/-- Value of one character in `ParseUint`: a digit, or a letter counted from 10. -/
def charDigit (c : Char) : Option Nat :=
  if '0' ≤ c ∧ c ≤ '9' then some (c.toNat - 48)
  else if 'a' ≤ c ∧ c ≤ 'z' then some (c.toNat - 97 + 10)
  else if 'A' ≤ c ∧ c ≤ 'Z' then some (c.toNat - 65 + 10)
  else none

/-- Digit loop of `strconv.ParseUint` with bit size 64: `none` on a character that is not a digit
of the base, and on overflow. -/
def parseUintLoop (base : Nat) : List Char → Nat → Option Nat
  | [], n => some n
  | c :: cs, n =>
    match charDigit c with
    | none => none
    | some d =>
      if d ≥ base then none
      else if n * base + d ≥ 2 ^ 64 then none
      else parseUintLoop base cs (n * base + d)

/-- Function `strconv.ParseUint(s, 0, 64)`: the base comes from the prefix (`0x`, `0b`, `0o`, a
leading `0` for octal, else decimal). An underscore is taken as a syntax error. -/
def parseUint (s : List Char) : Option Nat :=
  match s with
  | [] => none
  | '0' :: rest =>
    match rest with
    | c :: _ :: _ =>
      if c = 'b' ∨ c = 'B' then parseUintLoop 2 rest.tail 0
      else if c = 'o' ∨ c = 'O' then parseUintLoop 8 rest.tail 0
      else if c = 'x' ∨ c = 'X' then parseUintLoop 16 rest.tail 0
      else parseUintLoop 8 rest 0
    | _ => parseUintLoop 8 rest 0
  | _ => parseUintLoop 10 s 0

/-- Function `strconv.ParseInt(s, 0, 0)`: an optional sign, then `ParseUint`, then the range of a
64-bit `int`. -/
def parseInt (s : List Char) : Option Int :=
  match s with
  | [] => none
  | c :: rest =>
    let neg := c = '-'
    let body := if c = '+' ∨ c = '-' then rest else s
    match parseUint body with
    | none => none
    | some un =>
      if ¬ neg ∧ un ≥ 2 ^ 63 then none
      else if neg ∧ un > 2 ^ 63 then none
      else some (if neg then -(un : Int) else (un : Int))

/-- A character is one of `0` to `9` (the digit class of Go regular expressions). -/
def isDigit (c : Char) : Bool := '0' ≤ c && c ≤ '9'

/-- Function `trimDecimal` of `cast` (v1.9 and later): a string that holds a point and has the
form sign, digits, point, digits loses the point and what follows it, and gets a `0` when no
digit is left; every other string is left as it is. -/
def trimDecimal (s : List Char) : List Char :=
  if '.' ∈ s then
    let sign : List Char :=
      match s with
      | '+' :: _ => ['+']
      | '-' :: _ => ['-']
      | _ => []
    let body := s.drop sign.length
    let whole := body.takeWhile isDigit
    match body.dropWhile isDigit with
    | '.' :: frac =>
      if frac.all isDigit then (if whole = [] then sign ++ ['0'] else sign ++ whole) else s
    | _ => s
  else s

/-- Function `cast.ToInt` on a string: `strconv.ParseInt` of the string without its decimal part,
`0` when the string is empty or parsing fails. (Up to v1.8 `cast` handed the string to `ParseInt`
as it is, or without a decimal part of zeros only; on a string without a point all versions
agree.) -/
def ToInt (s : List Char) : Int :=
  match parseInt (trimDecimal s) with
  | some v => v
  | none => 0

/-! ## `log.go` -/

/-- Type `Config` of `log.go`. -/
structure Config where
  LogPath : String
  LogName : String
  Level : Int
  OutputFile : Bool
  OutputConsole : Bool
  D : Int
  Layout : String
deriving DecidableEq, Repr

/-- The fields of `zap.Config` that `log.go` sets; `OutputPaths` starts as `["stderr"]` in
`zap.NewProductionConfig`. -/
structure ZapConfig where
  Level : Int
  TimeKey : String
  SamplingInitial : Int
  SamplingThereafter : Int
  OutputPaths : List String
deriving DecidableEq, Repr

/-- A `*zap.Logger`, identified by the output paths it writes to and its caller skip. -/
structure ZapLogger where
  paths : List String
  callerSkip : Int
deriving DecidableEq, Repr

/-- Type `log` of `log.go`; `logger` is `none` for a nil handle. -/
structure log where
  logger : Option ZapLogger
  config : ZapConfig
  logPath : String
  logName : String
  outputFile : Bool
  outputConsole : Bool
  create : Time
  d : Int
  layout : String
  callerSkip : Int
deriving DecidableEq, Repr

/-- Constant `timeLayoutDefault`. -/
def timeLayoutDefault : String := "20060102150405"

/-- The format `fileNameFormat` applied to two strings: `fmt.Sprintf("%s.%s.log", a, b)`. -/
def fileNameFormat (a b : String) : String := a ++ "." ++ b ++ ".log"

/-- Function `timeZero`. -/
def timeZero (t : Time) (data : List Int) : Time :=
  match data with
  | [] => Date t.Year t.Month t.Day 0 0 0 0 t.Location
  | [a] => Date t.Year t.Month t.Day a 0 0 0 t.Location
  | [a, b] => Date t.Year t.Month t.Day a b 0 0 t.Location
  | [a, b, c] => Date t.Year t.Month t.Day a b c 0 t.Location
  | [a, b, c, e] => Date t.Year t.Month t.Day a b c e t.Location
  | _ => t

/-- The values of `h`, `m`, `s` and `upIndex` in the loop of `getLogFileName`. -/
structure Units where
  h : Int
  m : Int
  s : Int
  upIndex : Nat
deriving DecidableEq, Repr

/-- Slice `dString[lo:hi]`. -/
def slice (dString : List Char) (lo hi : Nat) : List Char := (dString.take hi).drop lo

/-- One iteration of the loop over `dString` in `getLogFileName`, at index `i`. -/
def unitStep (dString : List Char) (u : Units) (i : Nat) : Units :=
  let c := dString.getD i ' '
  if c = 'h' then { u with h := ToInt (slice dString u.upIndex i), upIndex := i }
  else if c = 'm' then { u with m := ToInt (slice dString u.upIndex i), upIndex := i }
  else if c = 's' then { u with s := ToInt (slice dString u.upIndex i), upIndex := i }
  else u

/-- The loop `for i := 0; i < len(dString); i++` of `getLogFileName`. -/
def parseUnits (dString : List Char) : Units :=
  (List.range dString.length).foldl (unitStep dString) { h := 0, m := 0, s := 0, upIndex := 0 }

/-- Lines 193 to 206 of `getLogFileName`: `now` after the truncations chosen by `h`, `m`, `s`.
(`h % 24` is taken for `h > 0` only, where Go's remainder and the one of `Int` agree.) -/
def truncateNow (h m s : Int) (now : Time) : Time :=
  let now :=
    if h > 0 then
      if h % 24 = 0 then timeZero now []
      else timeZero now [now.Day, now.Hour]
    else now
  let now := if m > 0 then timeZero now [now.Hour, now.Minute] else now
  let now := if s > 0 then timeZero now [now.Hour, now.Minute, now.Second] else now
  now

/-- Lines 175 to 206 of `getLogFileName`: the bucket start computed for the clock reading `now`
under the interval `d`. -/
def bucketStart (d : Int) (now : Time) : Time :=
  let u := parseUnits (Duration.String d)
  truncateNow u.h u.m u.s now

/-- Function `getLogFileName`. `now` is the reading of `time.Now().Local()`; the result is the
file name, the rotation flag and the state `l` after the call. (`l.d / Second` is
`l.d.Nanoseconds() / time.Second.Nanoseconds()`; it is taken for `l.d ≥ Second` only, where Go's
quotient and the one of `Int` agree.) -/
def getLogFileName (format : Time → String → String) (l : log) (now : Time) :
    (String × Bool) × log :=
  if l.d < Second then
    let l := if l.create.IsZero then { l with create := now } else l
    ((fileNameFormat l.logName (format (timeZero l.create []) l.layout), false), l)
  else
    let now := bucketStart l.d now
    if now.Unix - l.create.Unix ≥ l.d / Second then
      let l := { l with create := now }
      ((fileNameFormat l.logName (format l.create l.layout), true), l)
    else
      ((fileNameFormat l.logName (format l.create l.layout), false), l)


/-- Method `Time.Sub`: the duration `t - u` in nanoseconds. (Go saturates at the ends of `int64`,
about 292 years; no such distance is taken here.) -/
def Time.Sub (t u : Time) : Int := (t.sec - u.sec) * 1000000000 + (t.nsec - u.nsec)

/-- The nanosecond field of a `time.Time` lies in `[0, 999999999]`. -/
def Time.Valid (t : Time) : Prop := 0 ≤ t.nsec ∧ t.nsec < 1000000000

instance (t : Time) : Decidable t.Valid := by unfold Time.Valid; infer_instance

/-- The value of `zap.NewProductionConfig()` after the four assignments at the top of `Init`. -/
def productionConfig (level : Int) : ZapConfig :=
  { Level := level, TimeKey := "unix", SamplingInitial := 1000, SamplingThereafter := 1000,
    OutputPaths := ["stderr"] }

/-- What `Init` leaves behind: the returned error, the global `logger`, and the `Config` behind
the pointer `c` (which `Init` writes to). -/
structure InitResult where
  err : Option String
  logger : log
  c : Config

/-- Function `Init`. `build` is `zap.Config.Build` with the caller skip, `now` is the reading of
the clock inside `getLogFileName`. -/
def Init (format : Time → String → String) (build : ZapConfig → Int → Except String ZapLogger)
    (now : Time) (c : Config) : InitResult :=
  let cfg := productionConfig c.Level
  let logger : log :=
    { logger := none, config := cfg, d := c.D, logPath := c.LogPath, logName := c.LogName,
      outputFile := c.OutputFile, outputConsole := c.OutputConsole, create := zeroTime,
      layout := "", callerSkip := 1 }
  let (logger, c) : log × Config :=
    if c.OutputFile then
      let c := if c.LogName = "" then { c with LogName := "logger" } else c
      let logger := if c.Layout = "" then { logger with layout := timeLayoutDefault } else logger
      let r := getLogFileName format logger now
      let fileName := r.1.1
      let logger := r.2
      ({ logger with
          config := { logger.config with OutputPaths := [logger.logPath ++ "/" ++ fileName] } },
        c)
    else (logger, c)
  match build logger.config logger.callerSkip with
  | .ok z => { err := none, logger := { logger with logger := some z }, c := c }
  | .error e => { err := some e, logger := { logger with logger := none }, c := c }

/-- The collaborators of the logger: `Time.Format`, `zap.Config.Build`, `(*zap.Logger).Sync`
and the successive readings of `time.Now().Local()`. -/
structure Env where
  format : Time → String → String
  build : ZapConfig → Int → Except String ZapLogger
  sync : ZapLogger → Option String
  clock : Nat → Time

/-- The global `logger` and the number of clock readings taken so far. -/
structure World where
  l : log
  tick : Nat
deriving DecidableEq, Repr

/-- How a call ends: with a value, with a returned error, or in a Go panic. -/
inductive Outcome (α : Type) where
  | ok (a : α) (w : World)
  | err (e : String) (w : World)
  | panic (e : String) (w : World)
deriving DecidableEq, Repr

/-- Body of `getLogger` around the result of `check`: a returned error becomes a panic. -/
def getLoggerOf (r : Option (Outcome (Option ZapLogger))) : Option (Outcome (Option ZapLogger)) :=
  match r with
  | some (.err e w) => some (.panic e w)
  | r => r

/-- Method `check`. It calls `getLogger`, which calls `check` again; `fuel` bounds that nesting,
and `none` means the bound was hit. -/
def check (env : Env) : Nat → World → Option (Outcome (Option ZapLogger))
  | 0, _ => none
  | fuel + 1, w =>
    let l := w.l
    if !(l.outputFile || decide (l.d < Second)) then some (.ok l.logger w)
    else
      let reads := !(decide (l.d < Second) && !l.create.IsZero)
      let r := getLogFileName env.format l (env.clock w.tick)
      let fileName := r.1.1
      let w : World := { l := r.2, tick := if reads then w.tick + 1 else w.tick }
      if r.1.2 then
        match getLoggerOf (check env fuel w) with
        | none => none
        | some (.panic e w) => some (.panic e w)
        | some (.err e w) => some (.err e w)
        | some (.ok none w) => some (.panic "nil pointer dereference" w)
        | some (.ok (some z) w) =>
          match env.sync z with
          | some e => some (.err e w)
          | none =>
            let cfg := { w.l.config with OutputPaths := [w.l.logPath ++ "/" ++ fileName] }
            match env.build cfg w.l.callerSkip with
            | .ok z =>
              some (.ok (some z) { w with l := { w.l with config := cfg, logger := some z } })
            | .error e =>
              some (.err e { w with l := { w.l with config := cfg, logger := none } })
      else some (.ok w.l.logger w)

/-- Method `getLogger`. -/
def getLogger (env : Env) (fuel : Nat) (w : World) : Option (Outcome (Option ZapLogger)) :=
  getLoggerOf (check env fuel w)

/-- The levels of the facade functions. -/
inductive Level where
  | Debug | Info | Warn | Error | DPanic | Panic | Fatal
deriving DecidableEq, Repr

/-- One written log entry: the handle it went through, its level and its message. -/
structure Entry where
  handle : ZapLogger
  level : Level
  msg : String
deriving DecidableEq, Repr

/-- A call `h.Info(msg)`, `h.Warn(msg)`, ... on the handle `h`; what zap does after the write of
a `Panic` or `Fatal` entry is not followed. -/
def write (h : Option ZapLogger) (level : Level) (msg : String) (w : World) : Outcome Entry :=
  match h with
  | none => .panic "nil pointer dereference" w
  | some z => .ok { handle := z, level := level, msg := msg } w

/-- A statement `logger.getLogger().X(msg, fields...)`. -/
def emit (env : Env) (fuel : Nat) (level : Level) (msg : String) (w : World) :
    Option (Outcome Entry) :=
  match getLogger env fuel w with
  | none => none
  | some (.ok h w) => some (write h level msg w)
  | some (.err e w) => some (.err e w)
  | some (.panic e w) => some (.panic e w)

/-- A statement `defer logger.getLogger().Sync()` followed by `body`: the handle is fetched when
the `defer` statement runs; the result of the deferred `Sync` is dropped. -/
def deferSync (env : Env) (fuel : Nat) (body : World → Option (Outcome Entry)) (w : World) :
    Option (Outcome Entry) :=
  match getLogger env fuel w with
  | none => none
  | some (.ok h w) =>
    match body w, h with
    | some (.ok _ w), none => some (.panic "nil pointer dereference" w)
    | r, _ => r
  | some (.err e w) => some (.err e w)
  | some (.panic e w) => some (.panic e w)

/-- Function `Print`. -/
def Print (env : Env) (fuel : Nat) (msg : String) (w : World) : Option (Outcome Entry) :=
  deferSync env fuel (emit env fuel Level.Info msg) w

/-- Function `Debug`. -/
def Debug (env : Env) (fuel : Nat) (msg : String) (w : World) : Option (Outcome Entry) :=
  deferSync env fuel (emit env fuel Level.Debug msg) w

/-- Function `Info`: it reads the field `logger.logger` and does not call `getLogger`. -/
def Info (_env : Env) (_fuel : Nat) (msg : String) (w : World) : Option (Outcome Entry) :=
  some (write w.l.logger Level.Info msg w)

/-- Function `Warn`. -/
def Warn (env : Env) (fuel : Nat) (msg : String) (w : World) : Option (Outcome Entry) :=
  deferSync env fuel (emit env fuel Level.Warn msg) w

/-- Function `Error`. -/
def Error (env : Env) (fuel : Nat) (msg : String) (w : World) : Option (Outcome Entry) :=
  deferSync env fuel (emit env fuel Level.Error msg) w

/-- Function `DPanic`. -/
def DPanic (env : Env) (fuel : Nat) (msg : String) (w : World) : Option (Outcome Entry) :=
  emit env fuel Level.DPanic msg w

/-- Function `Panic`. -/
def Panic (env : Env) (fuel : Nat) (msg : String) (w : World) : Option (Outcome Entry) :=
  emit env fuel Level.Panic msg w

/-- Function `Fatal`. -/
def Fatal (env : Env) (fuel : Nat) (msg : String) (w : World) : Option (Outcome Entry) :=
  emit env fuel Level.Fatal msg w

/-! ## Definitions used to state the claims -/

/-- The decomposition of a duration by arithmetic, as the design note of the specification
words it: `h = d / 1h`, `m = (d mod 1h) / 1min`, `s = (d mod 1min) / 1s`. -/
def unitsArith (d : Int) : Units :=
  { h := d / Hour, m := d % Hour / Minute, s := d % Minute / Second, upIndex := 0 }

/-- The bucket start with the arithmetic decomposition in place of the parsed one. -/
def bucketStartArith (d : Int) (now : Time) : Time :=
  let u := unitsArith d
  truncateNow u.h u.m u.s now

/-- Function `getLogFileName` with the arithmetic decomposition in place of the parsed one. -/
def getLogFileNameArith (format : Time → String → String) (l : log) (now : Time) :
    (String × Bool) × log :=
  if l.d < Second then
    let l := if l.create.IsZero then { l with create := now } else l
    ((fileNameFormat l.logName (format (timeZero l.create []) l.layout), false), l)
  else
    let now := bucketStartArith l.d now
    if now.Unix - l.create.Unix ≥ l.d / Second then
      let l := { l with create := now }
      ((fileNameFormat l.logName (format l.create l.layout), true), l)
    else
      ((fileNameFormat l.logName (format l.create l.layout), false), l)

/-- No character of the list is one of the unit letters the loop of `getLogFileName` reacts to. -/
def NoUnit (l : List Char) : Prop := ∀ c ∈ l, c ≠ 'h' ∧ c ≠ 'm' ∧ c ≠ 's'

/-- Every character of the list is a decimal digit. -/
def AllDigits (l : List Char) : Prop := ∀ c ∈ l, ∃ k, k < 10 ∧ c = digitChar k

/-- A state of the logger as `Init` builds it before the first call of `getLogFileName`: no
handle, zero creation time. -/
def freshLog (d : Int) (logName layout : String) : log :=
  { logger := none, config := productionConfig 0, logPath := "", logName := logName,
    outputFile := true, outputConsole := false, create := zeroTime, d := d, layout := layout,
    callerSkip := 1 }

/-- The clock reading `2024-03-01T15:42:10` in UTC of the examples of the specification. -/
def exampleNow : Time := { sec := 1709307730, nsec := 0, loc := UTC }

/-- A formatting function for the examples: the layout followed by the Unix second of the time.
(`Time.Format` is an input of the model; the examples need one that tells two instants apart.) -/
def exampleFormat (t : Time) (layout : String) : String :=
  layout ++ "@" ++ String.mk (fmtInt [] t.sec.toNat)

/-- A `build` for the examples that always succeeds: the handle writes to the output paths of the
configuration. -/
def exampleBuild (cfg : ZapConfig) (callerSkip : Int) : Except String ZapLogger :=
  .ok { paths := cfg.OutputPaths, callerSkip := callerSkip }

/-- Collaborators for the examples: `Sync` never fails and the clock stands at
`2024-03-01T17:42:10` UTC for the whole call. -/
def exampleEnv : Env :=
  { format := exampleFormat, build := exampleBuild, sync := fun _ => none,
    clock := fun _ => { sec := 1709314930, nsec := 0, loc := UTC } }

/-- The logger that `Init` built at `2024-03-01T15:42:10` UTC with file output and a one-minute
interval. -/
def exampleWorld : World :=
  { l := (Init exampleFormat exampleBuild exampleNow
      { LogPath := "/var/log", LogName := "app", Level := 0, OutputFile := true,
        OutputConsole := false, D := Minute, Layout := "" }).logger,
    tick := 0 }

theorem daysSinceEpoch_digits (q a b c : Int) (ha : 0 ≤ a ∧ a ≤ 3) (hb : 0 ≤ b ∧ b ≤ 24)
    (hc : 0 ≤ c ∧ c ≤ 3) :
    daysSinceEpoch (400 * q + 100 * a + 4 * b + c + 1)
      = 146097 * q + 36524 * a + 1461 * b + 365 * c := by
  have h1 : (400 * q + 100 * a + 4 * b + c + 1 - 1) / 400 = q := by omega
  have h2 : (100 * a + 4 * b + c) / 100 = a := by omega
  have h3 : (4 * b + c) / 4 = b := by omega
  simp only [daysSinceEpoch, h1]
  have e1 : 400 * q + 100 * a + 4 * b + c + 1 - 1 - 400 * q = 100 * a + 4 * b + c := by ring
  rw [e1, h2]
  have e2 : 100 * a + 4 * b + c - 100 * a = 4 * b + c := by ring
  rw [e2, h3]
  ring

theorem absYear_digits (d : Int) :
    ∃ q a b c r : Int, 0 ≤ a ∧ a ≤ 3 ∧ 0 ≤ b ∧ b ≤ 24 ∧ 0 ≤ c ∧ c ≤ 3 ∧ 0 ≤ r ∧
      absYear d = (400 * q + 100 * a + 4 * b + c + 1, r) ∧
      d = 146097 * q + 36524 * a + 1461 * b + 365 * c + r ∧
      (r ≤ 364 ∨ (r = 365 ∧ c = 3 ∧ (b < 24 ∨ a = 3))) := by
  obtain ⟨q, hq⟩ : ∃ q, q = d / 146097 := ⟨_, rfl⟩
  obtain ⟨d1, hd1⟩ : ∃ d1, d1 = d - 146097 * q := ⟨_, rfl⟩
  have b1 : 0 ≤ d1 ∧ d1 ≤ 146096 := by omega
  obtain ⟨a, ha⟩ : ∃ a, a = d1 / 36524 - d1 / 36524 / 4 := ⟨_, rfl⟩
  obtain ⟨d2, hd2⟩ : ∃ d2, d2 = d1 - 36524 * a := ⟨_, rfl⟩
  have b2 : 0 ≤ a ∧ a ≤ 3 ∧ 0 ≤ d2 ∧ d2 ≤ 36524 ∧ (d2 = 36524 → a = 3) := by omega
  obtain ⟨b, hb⟩ : ∃ b, b = d2 / 1461 := ⟨_, rfl⟩
  obtain ⟨d3, hd3⟩ : ∃ d3, d3 = d2 - 1461 * b := ⟨_, rfl⟩
  have b3 : 0 ≤ b ∧ b ≤ 24 ∧ 0 ≤ d3 ∧ d3 ≤ 1460 ∧ (b = 24 → d3 ≤ 1460 - 1 ∨ a = 3) := by omega
  obtain ⟨c, hc⟩ : ∃ c, c = d3 / 365 - d3 / 365 / 4 := ⟨_, rfl⟩
  obtain ⟨r, hr⟩ : ∃ r, r = d3 - 365 * c := ⟨_, rfl⟩
  have b4 : 0 ≤ c ∧ c ≤ 3 ∧ 0 ≤ r ∧ (r ≤ 364 ∨ (r = 365 ∧ c = 3 ∧ d3 = 1460)) := by omega
  refine ⟨q, a, b, c, r, b2.1, b2.2.1, b3.1, b3.2.1, b4.1, b4.2.1, b4.2.2.1, ?_, by omega, by omega⟩
  simp only [absYear, ← hq, ← hd1, ← ha, ← hd2, ← hb, ← hd3, ← hc, ← hr]

theorem isLeap_digits (q a b c : Int) (ha : 0 ≤ a ∧ a ≤ 3) (hb : 0 ≤ b ∧ b ≤ 24)
    (hc : 0 ≤ c ∧ c ≤ 3) :
    isLeap (400 * q + 100 * a + 4 * b + c + 1) = true ↔ (c = 3 ∧ (b < 24 ∨ a = 3)) := by
  simp only [isLeap, Bool.and_eq_true, Bool.or_eq_true, decide_eq_true_eq, ne_eq]
  omega

/-- The year and day of the year of a day number add up to it again, and the day of the year
lies inside the year. -/
theorem absYear_spec (d : Int) :
    daysSinceEpoch (absYear d).1 + (absYear d).2 = d ∧ 0 ≤ (absYear d).2 ∧
      (absYear d).2 ≤ (if isLeap (absYear d).1 then 365 else 364) := by
  obtain ⟨q, a, b, c, r, ha0, ha3, hb0, hb24, hc0, hc3, hr0, heq, hd, hr⟩ := absYear_digits d
  rw [heq]
  simp only
  rw [daysSinceEpoch_digits q a b c ⟨ha0, ha3⟩ ⟨hb0, hb24⟩ ⟨hc0, hc3⟩]
  refine ⟨by omega, hr0, ?_⟩
  have hl := isLeap_digits q a b c ⟨ha0, ha3⟩ ⟨hb0, hb24⟩ ⟨hc0, hc3⟩
  by_cases h : isLeap (400 * q + 100 * a + 4 * b + c + 1) = true
  · rw [if_pos h]; omega
  · rw [if_neg h]
    have : ¬ (c = 3 ∧ (b < 24 ∨ a = 3)) := fun hh => h (hl.2 hh)
    omega

/-- The entries of `daysBefore` at a month index and the next one. -/
theorem daysBefore_pair (m : Int) (h0 : 0 ≤ m) (h1 : m ≤ 11) :
    (m = 0 ∧ daysBefore m = 0 ∧ daysBefore (m + 1) = 31) ∨
    (m = 1 ∧ daysBefore m = 31 ∧ daysBefore (m + 1) = 59) ∨
    (m = 2 ∧ daysBefore m = 59 ∧ daysBefore (m + 1) = 90) ∨
    (m = 3 ∧ daysBefore m = 90 ∧ daysBefore (m + 1) = 120) ∨
    (m = 4 ∧ daysBefore m = 120 ∧ daysBefore (m + 1) = 151) ∨
    (m = 5 ∧ daysBefore m = 151 ∧ daysBefore (m + 1) = 181) ∨
    (m = 6 ∧ daysBefore m = 181 ∧ daysBefore (m + 1) = 212) ∨
    (m = 7 ∧ daysBefore m = 212 ∧ daysBefore (m + 1) = 243) ∨
    (m = 8 ∧ daysBefore m = 243 ∧ daysBefore (m + 1) = 273) ∨
    (m = 9 ∧ daysBefore m = 273 ∧ daysBefore (m + 1) = 304) ∨
    (m = 10 ∧ daysBefore m = 304 ∧ daysBefore (m + 1) = 334) ∨
    (m = 11 ∧ daysBefore m = 334 ∧ daysBefore (m + 1) = 365) := by
  interval_cases m <;> decide

/-- The month estimate of `absDate` on a day of a non-leap year (leap day taken out). -/
theorem monthOf_spec (dd : Int) (h0 : 0 ≤ dd) (h1 : dd ≤ 364) :
    (dd ≥ daysBefore (dd / 31 + 1) → dd / 31 + 2 ≤ 12 ∧ 59 ≤ dd) ∧
    (¬ dd ≥ daysBefore (dd / 31 + 1) → (dd / 31 + 1 ≥ 3 ↔ 59 ≤ dd)) ∧ 0 ≤ dd / 31 ∧
      dd / 31 ≤ 11 := by
  have hm : 0 ≤ dd / 31 ∧ dd / 31 ≤ 11 := by omega
  have hp := daysBefore_pair (dd / 31) hm.1 hm.2
  omega

/-- The month and the day that `monthDay` gives lie in range and locate the day of the year
again through `daysBefore`. -/
theorem monthDay_spec (year yday : Int) (h0 : 0 ≤ yday)
    (h1 : yday ≤ (if isLeap year then 365 else 364)) :
    1 ≤ (monthDay year yday).1 ∧ (monthDay year yday).1 ≤ 12 ∧
      daysBefore ((monthDay year yday).1 - 1)
        + (if (isLeap year && decide ((monthDay year yday).1 ≥ 3)) = true then 1 else 0)
        + ((monthDay year yday).2 - 1) = yday := by
  have key : ∀ dd : Int, 0 ≤ dd → dd ≤ 364 →
      ∀ P : Int × Int → Prop,
      (∀ mo dy : Int, 1 ≤ mo → mo ≤ 12 → (mo ≥ 3 ↔ 59 ≤ dd) →
        daysBefore (mo - 1) + (dy - 1) = dd → P (mo, dy)) →
      P (if dd ≥ daysBefore (dd / 31 + 1) then (dd / 31 + 2, dd - daysBefore (dd / 31 + 1) + 1)
          else (dd / 31 + 1, dd - daysBefore (dd / 31) + 1)) := by
    intro dd hd0 hd1 P hP
    obtain ⟨ha, hb, hc0, hc1⟩ := monthOf_spec dd hd0 hd1
    by_cases hge : dd ≥ daysBefore (dd / 31 + 1)
    · rw [if_pos hge]
      have := ha hge
      apply hP
      · omega
      · omega
      · omega
      · have e : dd / 31 + 2 - 1 = dd / 31 + 1 := by ring
        rw [e]; ring
    · rw [if_neg hge]
      have := hb hge
      apply hP
      · omega
      · omega
      · exact this
      · have e : dd / 31 + 1 - 1 = dd / 31 := by ring
        rw [e]; ring
  unfold monthDay
  cases hl : isLeap year
  · simp only [hl, Bool.false_and, Bool.false_eq_true, if_false] at h1 ⊢
    refine key yday h0 h1
      (fun p => 1 ≤ p.1 ∧ p.1 ≤ 12 ∧ daysBefore (p.1 - 1) + 0 + (p.2 - 1) = yday) ?_
    intro mo dy hmo1 hmo2 _ hsum
    exact ⟨hmo1, hmo2, by simpa using hsum⟩
  · simp only [hl, Bool.true_and, if_true, decide_eq_true_eq] at h1 ⊢
    by_cases h59 : yday = 31 + 29 - 1
    · rw [if_pos h59]
      refine ⟨by decide, by decide, ?_⟩
      simp only [h59]
      decide
    · rw [if_neg h59]
      obtain ⟨dd, hdd⟩ : ∃ dd, dd = (if yday > 31 + 29 - 1 then yday - 1 else yday) := ⟨_, rfl⟩
      rw [← hdd]
      have hdd' : 0 ≤ dd ∧ dd ≤ 364 ∧ (yday ≤ 58 → dd = yday) ∧ (yday ≥ 60 → dd = yday - 1) := by
        split at hdd <;> omega
      refine key dd hdd'.1 hdd'.2.1
        (fun p => 1 ≤ p.1 ∧ p.1 ≤ 12 ∧
          daysBefore (p.1 - 1) + (if p.1 ≥ 3 then 1 else 0) + (p.2 - 1) = yday) ?_
      intro mo dy hmo1 hmo2 hiff hsum
      refine ⟨hmo1, hmo2, ?_⟩
      show daysBefore (mo - 1) + (if mo ≥ 3 then 1 else 0) + (dy - 1) = yday
      by_cases h3 : mo ≥ 3
      · rw [if_pos h3]
        have := hiff.1 h3
        omega
      · rw [if_neg h3]
        have : ¬ 59 ≤ dd := fun hh => h3 (hiff.2 hh)
        omega

/-! ## `time.Date` on the fields of a `time.Time` -/

/-- The carries of `norm` cancel in the weighted sum of day, hour, minute and second. -/
theorem norm_carry (B d h mi s : Int) :
    (B + (d + (h + (mi + s / 60) / 60) / 24 - 1)) * 86400
        + ((h + (mi + s / 60) / 60) % 24 * 3600 + (mi + s / 60) % 60 * 60 + s % 60)
      = (B + (d - 1)) * 86400 + h * 3600 + mi * 60 + s := by
  omega

/-- A location without transitions has its base offset at every instant. -/
theorem lookup_fixed (loc : Location) (hfix : loc.tx = []) (sec : Int) :
    loc.lookup sec = (loc.base, alpha, omega) := by
  simp only [Location.lookup, hfix, lookupFrom]

theorem off_fixed (t : Time) (hfix : t.loc.tx = []) : t.off = t.loc.base := by
  simp only [Time.off, lookup_fixed t.loc hfix]

theorem abs_fixed (sec nsec : Int) (loc : Location) (hfix : loc.tx = []) :
    Time.abs { sec := sec, nsec := nsec, loc := loc } = sec + loc.base + unixToInternal := by
  simp only [Time.abs, Time.off, lookup_fixed loc hfix]

/-- `time.Date` in a location without transitions, with a month in range and a nanosecond in
range: the normalisation of the clock fields only moves carries, so the instant is the plain
weighted sum of the fields less the offset. -/
theorem Date_eq (y mo d h mi s ns : Int) (loc : Location) (hfix : loc.tx = [])
    (hmo : 1 ≤ mo ∧ mo ≤ 12) (hns : 0 ≤ ns ∧ ns < 1000000000) :
    Date y mo d h mi s ns loc =
      { sec := (daysSinceEpoch y + daysBefore (mo - 1)
                  + (if (isLeap y && decide (mo ≥ 3)) = true then 1 else 0) + (d - 1)) * 86400
                + h * 3600 + mi * 60 + s - unixToInternal - loc.base,
        nsec := ns, loc := loc } := by
  have e1 : (mo - 1) / 12 = 0 := by omega
  have e2 : (mo - 1) % 12 = mo - 1 := by omega
  have e3 : ns / 1000000000 = 0 := by omega
  have e4 : ns % 1000000000 = ns := by omega
  simp only [Date, norm, e1, e2, e3, e4, add_zero, sub_add_cancel, lookup_fixed loc hfix,
    ite_self]
  rw [Time.mk.injEq]
  refine ⟨?_, rfl, rfl⟩
  obtain ⟨A, hA⟩ : ∃ A, A = daysSinceEpoch y + daysBefore (mo - 1) := ⟨_, rfl⟩
  rw [← hA]
  by_cases hl : (isLeap y && decide (mo ≥ 3)) = true
  · have hc := norm_carry (A + 1) d h mi s
    simp only [hl, if_true]
    linarith
  · have hc := norm_carry A d h mi s
    simp only [hl, if_false, Bool.false_eq_true, add_zero]
    linarith

/-- In a location without transitions the calendar fields of a time rebuild its day number. -/
theorem Date_fields (t : Time) (hfix : t.loc.tx = []) (hh mm ss : Int) :
    Date t.Year t.Month t.Day hh mm ss 0 t.Location =
      { sec := t.abs / 86400 * 86400 + hh * 3600 + mm * 60 + ss - unixToInternal - t.loc.base,
        nsec := 0, loc := t.loc } := by
  obtain ⟨hsum, hy0, hy1⟩ := absYear_spec (t.abs / 86400)
  obtain ⟨hm1, hm12, hmd⟩ := monthDay_spec (absYear (t.abs / 86400)).1 (absYear (t.abs / 86400)).2
    hy0 hy1
  have hm : 1 ≤ t.Month ∧ t.Month ≤ 12 := ⟨hm1, hm12⟩
  simp only [Time.Location]
  rw [Date_eq _ _ _ _ _ _ _ _ hfix hm ⟨by decide, by decide⟩]
  rw [Time.mk.injEq]
  refine ⟨?_, rfl, rfl⟩
  simp only [Time.Year, Time.Month, Time.Day]
  omega

/-! ## `timeZero` and the truncation steps, in terms of the wall-clock second -/

theorem timeZero_nil (t : Time) (hfix : t.loc.tx = []) :
    timeZero t [] = { sec := t.sec - t.abs % 86400, nsec := 0, loc := t.loc } := by
  simp only [timeZero, Date_fields t hfix, Time.mk.injEq, and_true]
  simp only [Time.abs, off_fixed t hfix]
  omega

theorem timeZero_two (t : Time) (hfix : t.loc.tx = []) (a b : Int) :
    timeZero t [a, b] =
      { sec := t.sec - t.abs % 86400 + a * 3600 + b * 60, nsec := 0, loc := t.loc } := by
  simp only [timeZero, Date_fields t hfix, Time.mk.injEq, and_true]
  simp only [Time.abs, off_fixed t hfix]
  omega

theorem timeZero_three (t : Time) (hfix : t.loc.tx = []) (a b c : Int) :
    timeZero t [a, b, c] =
      { sec := t.sec - t.abs % 86400 + a * 3600 + b * 60 + c, nsec := 0, loc := t.loc } := by
  simp only [timeZero, Date_fields t hfix, Time.mk.injEq, and_true]
  simp only [Time.abs, off_fixed t hfix]
  omega

/-- Truncation to the minute: `timeZero now [now.Hour, now.Minute]`. -/
theorem timeZero_minute (t : Time) (hfix : t.loc.tx = []) :
    timeZero t [t.Hour, t.Minute] = { sec := t.sec - t.abs % 60, nsec := 0, loc := t.loc } := by
  rw [timeZero_two t hfix, Time.mk.injEq]
  refine ⟨?_, rfl, rfl⟩
  simp only [Time.Hour, Time.Minute]
  omega

/-- Truncation to the second: `timeZero now [now.Hour, now.Minute, now.Second]`. -/
theorem timeZero_second (t : Time) (hfix : t.loc.tx = []) :
    timeZero t [t.Hour, t.Minute, t.Second] = { sec := t.sec, nsec := 0, loc := t.loc } := by
  rw [timeZero_three t hfix, Time.mk.injEq]
  refine ⟨?_, rfl, rfl⟩
  simp only [Time.Hour, Time.Minute, Time.Second]
  omega

/-- The hour branch of `getLogFileName` for an hour count that is no multiple of 24: the day of
the month lands in the hour field and the hour in the minute field of `time.Date`. -/
theorem timeZero_dayHour (t : Time) (hfix : t.loc.tx = []) :
    timeZero t [t.Day, t.Hour] =
      { sec := t.sec - t.abs % 86400 + t.Day * 3600 + t.Hour * 60, nsec := 0, loc := t.loc } :=
  timeZero_two t hfix _ _

/-- A time on a whole minute with no nanoseconds is left alone by the minute and second steps. -/
theorem truncateNow_zero_of_aligned (m s : Int) (t : Time) (hfix : t.loc.tx = [])
    (h60 : t.abs % 60 = 0)
    (hn : t.nsec = 0) : truncateNow 0 m s t = t := by
  have hmin : timeZero t [t.Hour, t.Minute] = t := by
    rw [timeZero_minute t hfix, h60]
    cases t
    simp_all
  have hsec : timeZero t [t.Hour, t.Minute, t.Second] = t := by
    rw [timeZero_second t hfix]
    cases t
    simp_all
  unfold truncateNow
  simp only [lt_self_iff_false, if_false]
  by_cases hm : m > 0 <;> by_cases hs : s > 0 <;> simp [hm, hs, hmin, hsec]

/-- The same, for a time given by its fields. -/
theorem truncateNow_zero_of_aligned_fields (m s sec : Int) (loc : Location)
    (hfix : loc.tx = []) (h60 : (sec + loc.base + unixToInternal) % 60 = 0) :
    truncateNow 0 m s { sec := sec, nsec := 0, loc := loc }
      = { sec := sec, nsec := 0, loc := loc } :=
  truncateNow_zero_of_aligned m s { sec := sec, nsec := 0, loc := loc } hfix
    (by rw [abs_fixed sec 0 loc hfix]; exact h60) rfl

/-! ## `Duration.String`: shape of the output -/

/-- What the scanning loop and `ParseUint` see of a decimal digit. -/
theorem digitChar_facts : ∀ k, k < 10 →
    digitChar k ≠ 'h' ∧ digitChar k ≠ 'm' ∧ digitChar k ≠ 's' ∧ digitChar k ≠ '+' ∧
      digitChar k ≠ '-' ∧ digitChar k ≠ '.' ∧ charDigit (digitChar k) = some k ∧
      (digitChar k = '0' → k = 0) := by
  decide

theorem NoUnit_of_AllDigits {l : List Char} (h : AllDigits l) : NoUnit l := by
  intro c hc
  obtain ⟨k, hk, rfl⟩ := h c hc
  have := digitChar_facts k hk
  exact ⟨this.1, this.2.1, this.2.2.1⟩

theorem NoUnit_append {a b : List Char} (ha : NoUnit a) (hb : NoUnit b) : NoUnit (a ++ b) := by
  intro c hc
  rcases List.mem_append.1 hc with h | h
  · exact ha c h
  · exact hb c h

theorem fmtIntLoop_append (fuel v : Nat) (buf : List Char) :
    fmtIntLoop fuel v buf = fmtIntLoop fuel v [] ++ buf := by
  induction fuel generalizing v buf with
  | zero => simp [fmtIntLoop]
  | succ f ih =>
    simp only [fmtIntLoop]
    by_cases hv : v = 0
    · simp [hv]
    · simp only [hv, if_false]
      rw [ih (v / 10) (digitChar (v % 10) :: buf), ih (v / 10) [digitChar (v % 10)]]
      simp

theorem fmtIntLoop_digits (fuel v : Nat) : AllDigits (fmtIntLoop fuel v []) := by
  induction fuel generalizing v with
  | zero => intro c hc; simp [fmtIntLoop] at hc
  | succ f ih =>
    simp only [fmtIntLoop]
    by_cases hv : v = 0
    · intro c hc; simp [hv] at hc
    · simp only [hv, if_false]
      rw [fmtIntLoop_append]
      intro c hc
      rcases List.mem_append.1 hc with h | h
      · exact ih _ c h
      · simp only [List.mem_singleton] at h
        exact ⟨v % 10, Nat.mod_lt _ (by decide), h⟩

/-- The first digit written for a positive number is not zero. -/
theorem fmtIntLoop_head (fuel v : Nat) (buf : List Char) (h0 : 0 < v) (hf : v ≤ fuel) :
    ∃ k rest, 1 ≤ k ∧ k ≤ 9 ∧ fmtIntLoop fuel v buf = digitChar k :: rest := by
  induction fuel generalizing v buf with
  | zero => omega
  | succ f ih =>
    simp only [fmtIntLoop]
    have hv : v ≠ 0 := by omega
    simp only [hv, if_false]
    by_cases h10 : v / 10 = 0
    · refine ⟨v % 10, buf, by omega, by omega, ?_⟩
      rw [h10]
      cases f <;> simp [fmtIntLoop]
    · exact ih (v / 10) _ (by omega) (by omega)

/-- Reading back what `fmtInt` wrote. -/
theorem parseUintLoop_fmtIntLoop (fuel v : Nat) (buf : List Char) (hf : v ≤ fuel)
    (hv : v < 2 ^ 64) :
    parseUintLoop 10 (fmtIntLoop fuel v buf) 0 = parseUintLoop 10 buf v := by
  induction fuel generalizing v buf with
  | zero =>
    have : v = 0 := by omega
    simp [fmtIntLoop, this]
  | succ f ih =>
    simp only [fmtIntLoop]
    by_cases h0 : v = 0
    · simp [h0]
    · simp only [h0, if_false]
      rw [ih (v / 10) _ (by omega) (by omega)]
      have hd := (digitChar_facts (v % 10) (Nat.mod_lt _ (by decide))).2.2.2.2.2.2.1
      have e : v / 10 * 10 + v % 10 = v := by omega
      simp only [parseUintLoop, hd, e]
      have h1 : ¬ v % 10 ≥ 10 := by omega
      have h2 : ¬ v ≥ 2 ^ 64 := by omega
      simp only [h1, h2, if_false]

theorem fmtInt_append (buf : List Char) (v : Nat) : fmtInt buf v = fmtInt [] v ++ buf := by
  unfold fmtInt
  by_cases hv : v = 0
  · simp [hv]
  · simp only [hv, if_false]
    exact fmtIntLoop_append v v buf

theorem fmtInt_digits (v : Nat) : AllDigits (fmtInt [] v) := by
  unfold fmtInt
  by_cases hv : v = 0
  · simp only [hv, if_true]
    intro c hc
    simp only [List.mem_singleton] at hc
    exact ⟨0, by decide, by rw [hc]; rfl⟩
  · simp only [hv, if_false]
    exact fmtIntLoop_digits v v

theorem digitChar_isDigit : ∀ k, k < 10 → isDigit (digitChar k) = true := by
  decide

theorem AllDigits_isDigit {l : List Char} (h : AllDigits l) : ∀ c ∈ l, isDigit c = true := by
  intro c hc
  obtain ⟨k, hk, rfl⟩ := h c hc
  exact digitChar_isDigit k hk

theorem AllDigits_no_point {l : List Char} (h : AllDigits l) : '.' ∉ l := by
  intro hc
  obtain ⟨k, hk, he⟩ := h '.' hc
  exact (digitChar_facts k hk).2.2.2.2.2.1 he.symm

/-- A string without a point is left alone by `trimDecimal`. -/
theorem trimDecimal_no_point (s : List Char) (h : '.' ∉ s) : trimDecimal s = s := by
  simp only [trimDecimal, h, if_false]

/-- A positive number that fits a signed 64-bit integer survives `fmtInt` then `ParseInt`. -/
theorem parseInt_fmtInt (v : Nat) (h0 : 0 < v) (hv : v < 2 ^ 63) :
    parseInt (fmtInt [] v) = some (v : Int) := by
  have hne : v ≠ 0 := by omega
  obtain ⟨k, rest, hk1, hk9, hhead⟩ := fmtIntLoop_head v v [] h0 (le_refl _)
  have hp : parseUintLoop 10 (fmtIntLoop v v []) 0 = some v := by
    rw [parseUintLoop_fmtIntLoop v v [] (le_refl _) (by omega)]
    rfl
  have hk := digitChar_facts k (by omega)
  have hk0 : digitChar k ≠ '0' := fun h => by have := hk.2.2.2.2.2.2.2 h; omega
  have hu : parseUint (digitChar k :: rest) = parseUintLoop 10 (digitChar k :: rest) 0 := by
    unfold parseUint
    split
    · rename_i heq; cases heq
    · rename_i heq
      have := (List.cons.inj heq).1
      exact absurd this hk0
    · rfl
  simp only [fmtInt, hne, if_false, parseInt, hhead]
  have hs1 : ¬ (digitChar k = '+' ∨ digitChar k = '-') := by
    rintro (h | h)
    · exact hk.2.2.2.1 h
    · exact hk.2.2.2.2.1 h
  rw [hhead] at hp
  have hneg : ¬ (digitChar k = '-') := hk.2.2.2.2.1
  have hr : ¬ v ≥ 2 ^ 63 := by omega
  have hplus : ¬ (digitChar k = '+') := hk.2.2.2.1
  simp only [hs1, hplus, if_false, hneg, or_self]
  rw [hu, hp]
  simp only [not_false_eq_true, true_and, false_and, if_false, hr]

/-- A positive number that fits a signed 64-bit integer survives `fmtInt` then `cast.ToInt`. -/
theorem ToInt_fmtInt (v : Nat) (h0 : 0 < v) (hv : v < 2 ^ 63) : ToInt (fmtInt [] v) = v := by
  simp only [ToInt, trimDecimal_no_point _ (AllDigits_no_point (fmtInt_digits v)),
    parseInt_fmtInt v h0 hv]

/-- The loop of `fmtFrac`: digits in front of the buffer, the quotient, and whether anything was
printed; nothing is printed when the fraction is zero. -/
theorem fmtFracLoop_spec (prec : Nat) (buf : List Char) (v : Nat) (print : Bool) :
    ∃ F, AllDigits F ∧ (fmtFracLoop prec buf v print).1 = F ++ buf ∧
      (fmtFracLoop prec buf v print).2.1 = v / 10 ^ prec ∧
      (fmtFracLoop prec buf v print).2.2 = (print || decide (v % 10 ^ prec ≠ 0)) ∧
      ((fmtFracLoop prec buf v print).2.2 = false → F = []) := by
  induction prec generalizing buf v print with
  | zero =>
    refine ⟨[], ?_, ?_, ?_, ?_, ?_⟩
    · intro c hc; simp at hc
    · simp [fmtFracLoop]
    · simp [fmtFracLoop]
    · simp [fmtFracLoop, Nat.mod_one]
    · intro _; rfl
  | succ p ih =>
    simp only [fmtFracLoop]
    obtain ⟨F, hF, h1, h2, h3, h4⟩ :=
      ih (if (print || decide (v % 10 ≠ 0)) = true then digitChar (v % 10) :: buf else buf)
        (v / 10) (print || decide (v % 10 ≠ 0))
    have hdiv : v / 10 / 10 ^ p = v / 10 ^ (p + 1) := by
      rw [Nat.div_div_eq_div_mul, pow_succ, Nat.mul_comm]
    have hmod : (v % 10 ^ (p + 1) ≠ 0) ↔ (v % 10 ≠ 0 ∨ v / 10 % 10 ^ p ≠ 0) := by
      rw [pow_succ, Nat.mul_comm, Nat.mod_mul]
      generalize v / 10 % 10 ^ p = x
      omega
    have hpr : (fmtFracLoop p
        (if (print || decide (v % 10 ≠ 0)) = true then digitChar (v % 10) :: buf else buf)
        (v / 10) (print || decide (v % 10 ≠ 0))).2.2
        = (print || decide (v % 10 ^ (p + 1) ≠ 0)) := by
      rw [h3]
      have := hmod
      by_cases a1 : v % 10 = 0 <;> by_cases a2 : v / 10 % 10 ^ p = 0 <;>
        by_cases a3 : v % 10 ^ (p + 1) = 0 <;> simp_all
    by_cases hp : (print || decide (v % 10 ≠ 0)) = true
    · refine ⟨F ++ [digitChar (v % 10)], ?_, ?_, ?_, hpr, ?_⟩
      · intro c hc
        rcases List.mem_append.1 hc with h | h
        · exact hF c h
        · simp only [List.mem_singleton] at h
          exact ⟨v % 10, Nat.mod_lt _ (by decide), h⟩
      · rw [h1, if_pos hp]; simp
      · rw [h2, hdiv]
      · intro hfalse
        rw [h3, hp] at hfalse
        simp at hfalse
    · refine ⟨F, hF, ?_, ?_, hpr, h4⟩
      · rw [h1, if_neg hp]
      · rw [h2, hdiv]

/-- Function `fmtFrac`: either nothing (zero fraction) or a point followed by digits. -/
theorem fmtFrac_spec (buf : List Char) (v prec : Nat) :
    (fmtFrac buf v prec).2 = v / 10 ^ prec ∧
      ((v % 10 ^ prec = 0 ∧ (fmtFrac buf v prec).1 = buf) ∨
       (v % 10 ^ prec ≠ 0 ∧ ∃ F, AllDigits F ∧ (fmtFrac buf v prec).1 = '.' :: F ++ buf)) := by
  obtain ⟨F, hF, h1, h2, h3, h4⟩ := fmtFracLoop_spec prec buf v false
  unfold fmtFrac
  simp only [Bool.false_or] at h3
  refine ⟨h2, ?_⟩
  by_cases hz : v % 10 ^ prec = 0
  · left
    have hfalse : (fmtFracLoop prec buf v false).2.2 = false := by rw [h3]; simp [hz]
    refine ⟨hz, ?_⟩
    simp only [hfalse, Bool.false_eq_true, if_false, h1, h4 hfalse, List.nil_append]
  · right
    have htrue : (fmtFracLoop prec buf v false).2.2 = true := by rw [h3]; simp [hz]
    refine ⟨hz, F, hF, ?_⟩
    simp only [htrue, if_true, h1, List.cons_append]

/-! ## `cast.ToInt` on the slices the loop cuts out -/

/-- A slice that starts at the previous unit letter does not parse: `cast.ToInt` gives 0. -/
theorem ToInt_unit_head (c : Char) (rest : List Char) (hc : c = 'h' ∨ c = 'm') :
    ToInt (c :: rest) = 0 := by
  have ht : trimDecimal (c :: rest) = c :: rest := by
    by_cases hp : '.' ∈ c :: rest
    · rcases hc with rfl | rfl
      · simp [trimDecimal, hp, isDigit, List.takeWhile, List.dropWhile]
      · simp [trimDecimal, hp, isDigit, List.takeWhile, List.dropWhile]
    · exact trimDecimal_no_point _ hp
  have hu : parseUint (c :: rest) = none := by
    rcases hc with rfl | rfl
    · simp [parseUint, parseUintLoop, charDigit]
    · simp [parseUint, parseUintLoop, charDigit]
  rw [ToInt, ht]
  rcases hc with rfl | rfl
  · simp [parseInt, hu]
  · simp [parseInt, hu]

/-- Digits that start with a non-zero one and are followed by a fraction: `trimDecimal` keeps the
digits before the point. -/
theorem trimDecimal_fraction (D F : List Char) (hD : AllDigits D) (hF : AllDigits F)
    (hne : D ≠ []) : trimDecimal (D ++ '.' :: F) = D := by
  obtain ⟨c, rest, rfl⟩ : ∃ c rest, D = c :: rest := by
    cases D with
    | nil => exact absurd rfl hne
    | cons c rest => exact ⟨c, rest, rfl⟩
  obtain ⟨k, hk, hc⟩ := hD c (List.mem_cons_self _ _)
  have hk' := digitChar_facts k hk
  have hplus : c ≠ '+' := by rw [hc]; exact hk'.2.2.2.1
  have hminus : c ≠ '-' := by rw [hc]; exact hk'.2.2.2.2.1
  have hmem : '.' ∈ c :: rest ++ '.' :: F := by simp
  have hsign : (match c :: rest ++ '.' :: F with
      | '+' :: _ => ['+']
      | '-' :: _ => ['-']
      | _ => ([] : List Char)) = [] := by
    split
    · rename_i heq; exact absurd (List.cons.inj heq).1 hplus
    · rename_i heq; exact absurd (List.cons.inj heq).1 hminus
    · rfl
  have htake : (c :: rest ++ '.' :: F).takeWhile isDigit = c :: rest := by
    rw [List.takeWhile_append_of_pos (AllDigits_isDigit hD)]
    simp [List.takeWhile, isDigit]
  have hdrop : (c :: rest ++ '.' :: F).dropWhile isDigit = '.' :: F := by
    rw [List.dropWhile_append_of_pos (AllDigits_isDigit hD)]
    simp [List.dropWhile, isDigit]
  have hall : F.all isDigit = true := List.all_eq_true.2 (AllDigits_isDigit hF)
  simp only [trimDecimal, hmem, if_true, hsign, List.length_nil, List.drop_zero, htake, hdrop,
    hall, List.nil_append]
  simp

/-- Digits of a positive number followed by a fraction: `cast.ToInt` gives the number before the
point. -/
theorem ToInt_fraction (v : Nat) (h0 : 0 < v) (hv : v < 2 ^ 63) (F : List Char)
    (hF : AllDigits F) : ToInt (fmtInt [] v ++ '.' :: F) = v := by
  have hne : fmtInt [] v ≠ [] := by
    obtain ⟨k, rest, _, _, hhead⟩ := fmtIntLoop_head v v [] h0 (le_refl _)
    have hv0 : v ≠ 0 := by omega
    simp only [fmtInt, hv0, if_false, hhead]
    exact List.cons_ne_nil _ _
  simp only [ToInt, trimDecimal_fraction _ F (fmtInt_digits v) hF hne, parseInt_fmtInt v h0 hv]

/-! ## The scanning loop of `getLogFileName` -/

theorem unitStep_skip (ds : List Char) (u : Units) (i : Nat)
    (h : ds.getD i ' ' ≠ 'h' ∧ ds.getD i ' ' ≠ 'm' ∧ ds.getD i ' ' ≠ 's') :
    unitStep ds u i = u := by
  simp only [unitStep, h.1, h.2.1, h.2.2, if_false]

theorem foldl_skip (ds : List Char) (n a : Nat) (u : Units)
    (h : ∀ i, a ≤ i → i < a + n →
      ds.getD i ' ' ≠ 'h' ∧ ds.getD i ' ' ≠ 'm' ∧ ds.getD i ' ' ≠ 's') :
    (List.range' a n).foldl (unitStep ds) u = u := by
  induction n generalizing a u with
  | zero => rfl
  | succ n ih =>
    rw [List.range'_succ, List.foldl_cons, unitStep_skip ds u a (h a (le_refl _) (by omega))]
    exact ih (a + 1) u (fun i h1 h2 => h i (by omega) (by omega))

theorem getD_segment (P X R : List Char) (i : Nat) (h1 : P.length ≤ i)
    (h2 : i < P.length + X.length) : (P ++ (X ++ R)).getD i ' ' ∈ X := by
  rw [List.getD_append_right _ _ _ _ h1, List.getD_append _ _ _ _ (by omega)]
  rw [List.getD_eq_getElem _ _ (by omega)]
  exact List.getElem_mem _

theorem getD_unit (P X R : List Char) (c : Char) :
    (P ++ (X ++ c :: R)).getD (P.length + X.length) ' ' = c := by
  rw [List.getD_append_right _ _ _ _ (by omega), List.getD_append_right _ _ _ _ (by omega)]
  have : P.length + X.length - P.length - X.length = 0 := by omega
  rw [this]
  rfl

/-- Scanning a stretch without unit letters up to and including the unit letter after it is the
single step at the unit letter. -/
theorem scan_to_unit (ds P X R : List Char) (c : Char) (u : Units) (hX : NoUnit X)
    (hds : ds = P ++ (X ++ c :: R)) :
    (List.range' P.length (X.length + 1)).foldl (unitStep ds) u
      = unitStep ds u (P.length + X.length) := by
  rw [List.range'_1_concat, List.foldl_append, List.foldl_cons, List.foldl_nil]
  rw [foldl_skip ds X.length P.length u]
  intro i h1 h2
  rw [hds]
  exact hX _ (getD_segment P X (c :: R) i h1 h2)

theorem slice_initial (A R : List Char) : slice (A ++ R) 0 A.length = A := by
  simp [slice]

theorem slice_from (A R : List Char) (c : Char) (i : Nat) (h : A.length < i) :
    ∃ T, slice (A ++ c :: R) A.length i = c :: T := by
  obtain ⟨k, hk⟩ : ∃ k, i = A.length + (k + 1) := ⟨i - A.length - 1, by omega⟩
  refine ⟨R.take k, ?_⟩
  rw [hk]
  simp [slice, List.take_append_eq_append_take]

theorem range'_split (s m n : Nat) :
    List.range' s (m + n) = List.range' s m ++ List.range' (s + m) n := by
  rw [List.range'_append_1, Nat.add_comm]

/-- The loop on `<A>h<B>m<C>s`: only the hours parse, the other two slices start at a letter. -/
theorem parseUnits_hms (A B C : List Char) (hA : NoUnit A) (hB : NoUnit B) (hC : NoUnit C) :
    (parseUnits (A ++ 'h' :: (B ++ 'm' :: (C ++ ['s'])))).h = ToInt A ∧
    (parseUnits (A ++ 'h' :: (B ++ 'm' :: (C ++ ['s'])))).m = 0 ∧
    (parseUnits (A ++ 'h' :: (B ++ 'm' :: (C ++ ['s'])))).s = 0 := by
  obtain ⟨ds, hds⟩ : ∃ ds, ds = A ++ 'h' :: (B ++ 'm' :: (C ++ ['s'])) := ⟨_, rfl⟩
  have hlen : ds.length = (A.length + 1) + ((B.length + 1) + (C.length + 1)) := by
    rw [hds]; simp; omega
  have hr : List.range ds.length =
      List.range' 0 (A.length + 1) ++ (List.range' (A.length + 1) (B.length + 1) ++
        List.range' (A.length + 1 + (B.length + 1)) (C.length + 1)) := by
    rw [List.range_eq_range', hlen, range'_split 0, range'_split (0 + (A.length + 1))]
    simp only [Nat.zero_add]
  have s1 := scan_to_unit ds [] A (B ++ 'm' :: (C ++ ['s'])) 'h'
    { h := 0, m := 0, s := 0, upIndex := 0 } hA (by rw [hds]; rfl)
  have s2 := fun u => scan_to_unit ds (A ++ ['h']) B (C ++ ['s']) 'm' u hB (by rw [hds]; simp)
  have s3 := fun u => scan_to_unit ds (A ++ 'h' :: (B ++ ['m'])) C [] 's' u hC
    (by rw [hds]; simp)
  have g1 : ds.getD A.length ' ' = 'h' := by
    have := getD_unit [] A (B ++ 'm' :: (C ++ ['s'])) 'h'
    simpa [hds] using this
  have g2 : ds.getD (A.length + 1 + B.length) ' ' = 'm' := by
    have := getD_unit (A ++ ['h']) B (C ++ ['s']) 'm'
    simpa [hds] using this
  have g3 : ds.getD (A.length + 1 + (B.length + 1) + C.length) ' ' = 's' := by
    have := getD_unit (A ++ 'h' :: (B ++ ['m'])) C [] 's'
    have e : (A ++ 'h' :: (B ++ ['m'])).length = A.length + 1 + (B.length + 1) := by
      simp; omega
    rw [e] at this
    simpa [hds] using this
  have l2 : (A ++ ['h']).length = A.length + 1 := by simp
  have l3 : (A ++ 'h' :: (B ++ ['m'])).length = A.length + 1 + (B.length + 1) := by
    simp; omega
  rw [l2] at s2
  rw [l3] at s3
  simp only [List.length_nil, Nat.zero_add] at s1
  obtain ⟨T2, hT2⟩ := slice_from A (B ++ 'm' :: (C ++ ['s'])) 'h' (A.length + 1 + B.length)
    (by omega)
  obtain ⟨T3, hT3⟩ := slice_from (A ++ 'h' :: B) (C ++ ['s']) 'm'
    (A.length + 1 + (B.length + 1) + C.length) (by simp; omega)
  have l4 : (A ++ 'h' :: B).length = A.length + 1 + B.length := by simp; omega
  rw [l4] at hT3
  have e3 : (A ++ 'h' :: B) ++ 'm' :: (C ++ ['s']) = ds := by rw [hds]; simp
  rw [e3] at hT3
  rw [← hds] at hT2 ⊢
  have hA' : slice ds 0 A.length = A := by rw [hds]; exact slice_initial A _
  unfold parseUnits
  rw [hr, List.foldl_append, List.foldl_append, s1, s2, s3]
  have z2 := ToInt_unit_head 'h' T2 (Or.inl rfl)
  have z3 := ToInt_unit_head 'm' T3 (Or.inr rfl)
  simp only [unitStep, g1, g2, g3, if_true]
  simp [hA', hT2, hT3, z2, z3]

/-- The loop on `<B>m<C>s`: only the minutes parse. -/
theorem parseUnits_ms (B C : List Char) (hB : NoUnit B) (hC : NoUnit C) :
    (parseUnits (B ++ 'm' :: (C ++ ['s']))).h = 0 ∧
    (parseUnits (B ++ 'm' :: (C ++ ['s']))).m = ToInt B ∧
    (parseUnits (B ++ 'm' :: (C ++ ['s']))).s = 0 := by
  obtain ⟨ds, hds⟩ : ∃ ds, ds = B ++ 'm' :: (C ++ ['s']) := ⟨_, rfl⟩
  have hlen : ds.length = (B.length + 1) + (C.length + 1) := by
    rw [hds]; simp; omega
  have hr : List.range ds.length =
      List.range' 0 (B.length + 1) ++ List.range' (B.length + 1) (C.length + 1) := by
    rw [List.range_eq_range', hlen, range'_split 0]
    simp only [Nat.zero_add]
  have s1 := scan_to_unit ds [] B (C ++ ['s']) 'm'
    { h := 0, m := 0, s := 0, upIndex := 0 } hB (by rw [hds]; rfl)
  have s2 := fun u => scan_to_unit ds (B ++ ['m']) C [] 's' u hC (by rw [hds]; simp)
  have g1 : ds.getD B.length ' ' = 'm' := by
    have := getD_unit [] B (C ++ ['s']) 'm'
    simpa [hds] using this
  have g2 : ds.getD (B.length + 1 + C.length) ' ' = 's' := by
    have := getD_unit (B ++ ['m']) C [] 's'
    simpa [hds] using this
  have l2 : (B ++ ['m']).length = B.length + 1 := by simp
  rw [l2] at s2
  simp only [List.length_nil, Nat.zero_add] at s1
  obtain ⟨T2, hT2⟩ := slice_from B (C ++ ['s']) 'm' (B.length + 1 + C.length) (by omega)
  rw [← hds] at hT2 ⊢
  have hB' : slice ds 0 B.length = B := by rw [hds]; exact slice_initial B _
  unfold parseUnits
  rw [hr, List.foldl_append, s1, s2]
  have z2 := ToInt_unit_head 'm' T2 (Or.inr rfl)
  simp only [unitStep, g1, g2, if_true]
  simp [hB', hT2, z2]

/-- The loop on `<C>s`: the seconds parse. -/
theorem parseUnits_s (C : List Char) (hC : NoUnit C) :
    (parseUnits (C ++ ['s'])).h = 0 ∧ (parseUnits (C ++ ['s'])).m = 0 ∧
    (parseUnits (C ++ ['s'])).s = ToInt C := by
  obtain ⟨ds, hds⟩ : ∃ ds, ds = C ++ ['s'] := ⟨_, rfl⟩
  have hlen : ds.length = C.length + 1 := by rw [hds]; simp
  have s1 := scan_to_unit ds [] C [] 's'
    { h := 0, m := 0, s := 0, upIndex := 0 } hC (by rw [hds]; rfl)
  have g1 : ds.getD C.length ' ' = 's' := by
    simp [hds]
  simp only [List.length_nil, Nat.zero_add] at s1
  rw [← hds]
  have hC' : slice ds 0 C.length = C := by rw [hds]; exact slice_initial C _
  unfold parseUnits
  rw [List.range_eq_range', hlen, s1]
  simp only [unitStep, g1, if_true]
  simp [hC']

/-! ## What `getLogFileName` reads out of `d.String()` -/

/-- The text of a duration of at least one second: hours and minutes appear from the largest
non-zero unit on, the seconds carry a fraction when the duration has one. -/
theorem Duration_String_shape (u : Nat) (hu : 1000000000 ≤ u) :
    ∃ F : List Char, NoUnit F ∧
      ((u % 1000000000 = 0 ∧ F = []) ∨
        (u % 1000000000 ≠ 0 ∧ ∃ F', AllDigits F' ∧ F = '.' :: F')) ∧
      Duration.String (u : Int) =
        (if u / 1000000000 / 60 / 60 > 0 then
          fmtInt [] (u / 1000000000 / 60 / 60) ++ 'h' ::
            (fmtInt [] (u / 1000000000 / 60 % 60) ++ 'm' ::
              ((fmtInt [] (u / 1000000000 % 60) ++ F) ++ ['s']))
        else if u / 1000000000 / 60 > 0 then
          fmtInt [] (u / 1000000000 / 60 % 60) ++ 'm' ::
            ((fmtInt [] (u / 1000000000 % 60) ++ F) ++ ['s'])
        else (fmtInt [] (u / 1000000000 % 60) ++ F) ++ ['s']) := by
  obtain ⟨hq, hfr⟩ := fmtFrac_spec ['s'] u 9
  have hnlt : ¬ u < 1000000000 := by omega
  have hneg : ¬ ((u : Int) < 0) := by omega
  have e9 : (10 : Nat) ^ 9 = 1000000000 := by norm_num
  rw [e9] at hq hfr
  have main : ∀ F : List Char, (fmtFrac ['s'] u 9).1 = F ++ ['s'] →
      Duration.String (u : Int) =
        (if u / 1000000000 / 60 / 60 > 0 then
          fmtInt [] (u / 1000000000 / 60 / 60) ++ 'h' ::
            (fmtInt [] (u / 1000000000 / 60 % 60) ++ 'm' ::
              ((fmtInt [] (u / 1000000000 % 60) ++ F) ++ ['s']))
        else if u / 1000000000 / 60 > 0 then
          fmtInt [] (u / 1000000000 / 60 % 60) ++ 'm' ::
            ((fmtInt [] (u / 1000000000 % 60) ++ F) ++ ['s'])
        else (fmtInt [] (u / 1000000000 % 60) ++ F) ++ ['s']) := by
    intro F hF
    have hpair : fmtFrac ['s'] u 9 = (F ++ ['s'], u / 1000000000) := by
      rw [← hF, ← hq]
    simp only [Duration.String, Int.natAbs_ofNat, hnlt, if_false, hneg, decide_False,
      Bool.false_eq_true, hpair]
    rw [fmtInt_append (F ++ ['s'])]
    by_cases h1 : u / 1000000000 / 60 > 0
    · simp only [h1, if_true]
      rw [fmtInt_append ('m' :: _)]
      by_cases h2 : u / 1000000000 / 60 / 60 > 0
      · simp only [h2, if_true]
        rw [fmtInt_append ('h' :: _)]
        simp
      · simp only [h2, if_false]
        simp
    · have h2 : ¬ u / 1000000000 / 60 / 60 > 0 := by omega
      simp only [h1, h2, if_false]
      simp
  rcases hfr with ⟨hz, hb⟩ | ⟨hz, F', hF', hb⟩
  · refine ⟨[], ?_, Or.inl ⟨hz, rfl⟩, main [] hb⟩
    intro c hc; simp at hc
  · refine ⟨'.' :: F', ?_, Or.inr ⟨hz, F', hF', rfl⟩, main ('.' :: F') hb⟩
    intro c hc
    rcases List.mem_cons.1 hc with h | h
    · rw [h]; decide
    · exact NoUnit_of_AllDigits hF' c h

/-- The `h`, `m`, `s` that `getLogFileName` parses out of `d.String()` for an interval of at
least one second: the count of the largest non-zero unit, and 0 for every smaller one (its slice
starts at the previous unit letter); of seconds with a fraction the whole seconds are read. -/
theorem parseUnits_String (d : Int) (h1 : Second ≤ d) (h2 : d < 2 ^ 63) :
    (parseUnits (Duration.String d)).h = d / Hour ∧
    (parseUnits (Duration.String d)).m = (if d / Hour > 0 then 0 else d / Minute) ∧
    (parseUnits (Duration.String d)).s = (if d / Minute > 0 then 0 else d / Second) := by
  simp only [Second, Hour, Minute] at h1 ⊢
  obtain ⟨u, rfl⟩ : ∃ u : Nat, d = (u : Int) := ⟨d.toNat, by omega⟩
  have hu : 1000000000 ≤ u := by omega
  have hu2 : u < 2 ^ 63 := by omega
  obtain ⟨F, hF, hFz, hshape⟩ := Duration_String_shape u hu
  rw [hshape]
  have dH := NoUnit_of_AllDigits (fmtInt_digits (u / 1000000000 / 60 / 60))
  have dM := NoUnit_of_AllDigits (fmtInt_digits (u / 1000000000 / 60 % 60))
  have dS := NoUnit_append (NoUnit_of_AllDigits (fmtInt_digits (u / 1000000000 % 60))) hF
  by_cases hH : u / 1000000000 / 60 / 60 > 0
  · simp only [hH, if_true]
    obtain ⟨a, b, c⟩ := parseUnits_hms _ _ _ dH dM dS
    rw [a, b, c, ToInt_fmtInt _ hH (by omega)]
    have g1 : ((u : Int) / 3600000000000 > 0) := by omega
    have g2 : ((u : Int) / 60000000000 > 0) := by omega
    simp only [g1, g2, if_true, and_self, and_true]
    omega
  · simp only [hH, if_false]
    have g1 : ¬ ((u : Int) / 3600000000000 > 0) := by omega
    by_cases hM : u / 1000000000 / 60 > 0
    · simp only [hM, if_true]
      obtain ⟨a, b, c⟩ := parseUnits_ms _ _ dM dS
      rw [a, b, c, ToInt_fmtInt _ (by omega) (by omega)]
      have g2 : ((u : Int) / 60000000000 > 0) := by omega
      simp only [g1, g2, if_true, if_false, and_true]
      omega
    · simp only [hM, if_false]
      obtain ⟨a, b, c⟩ := parseUnits_s _ dS
      rw [a, b, c]
      have g2 : ¬ ((u : Int) / 60000000000 > 0) := by omega
      simp only [g1, g2, if_false]
      have hpos : 0 < u / 1000000000 % 60 := by omega
      refine ⟨by omega, by omega, ?_⟩
      rcases hFz with ⟨hz, rfl⟩ | ⟨hz, F', hF', rfl⟩
      · rw [List.append_nil, ToInt_fmtInt _ hpos (by omega)]
        omega
      · rw [ToInt_fraction _ hpos (by omega) F' hF']
        omega

/-! ## The bucket start, case by case -/

/-- Hour count a positive multiple of 24: the bucket start is midnight of the day of `now`. -/
theorem bucketStart_day (d : Int) (now : Time) (hfix : now.loc.tx = []) (h1 : Second ≤ d)
    (h2 : d < 2 ^ 63)
    (hH : d / Hour > 0) (h24 : d / Hour % 24 = 0) :
    bucketStart d now = { sec := now.sec - now.abs % 86400, nsec := 0, loc := now.loc } := by
  obtain ⟨a, b, c⟩ := parseUnits_String d h1 h2
  have hM : d / Minute > 0 := by simp only [Hour, Minute] at hH ⊢; omega
  rw [if_pos hH] at b
  rw [if_pos hM] at c
  simp only [bucketStart, truncateNow, a, b, c, hH, h24, if_true, lt_self_iff_false, if_false,
    gt_iff_lt]
  exact timeZero_nil now hfix

/-- Hour count positive and no multiple of 24: `time.Date` gets the day of the month as its hour
and the hour as its minute. -/
theorem bucketStart_hour (d : Int) (now : Time) (hfix : now.loc.tx = []) (h1 : Second ≤ d)
    (h2 : d < 2 ^ 63)
    (hH : d / Hour > 0) (h24 : d / Hour % 24 ≠ 0) :
    bucketStart d now =
      { sec := now.sec - now.abs % 86400 + now.Day * 3600 + now.Hour * 60, nsec := 0,
        loc := now.loc } := by
  obtain ⟨a, b, c⟩ := parseUnits_String d h1 h2
  have hM : d / Minute > 0 := by simp only [Hour, Minute] at hH ⊢; omega
  rw [if_pos hH] at b
  rw [if_pos hM] at c
  simp only [bucketStart, truncateNow, a, b, c, hH, h24, if_true, lt_self_iff_false, if_false,
    gt_iff_lt]
  exact timeZero_dayHour now hfix

/-- No whole hour, at least one minute: the bucket start is the start of the minute of `now`. -/
theorem bucketStart_minute (d : Int) (now : Time) (hfix : now.loc.tx = []) (h1 : Second ≤ d)
    (h2 : d < 2 ^ 63)
    (hH : d / Hour = 0) (hM : d / Minute > 0) :
    bucketStart d now = { sec := now.sec - now.abs % 60, nsec := 0, loc := now.loc } := by
  obtain ⟨a, b, c⟩ := parseUnits_String d h1 h2
  have hH' : ¬ d / Hour > 0 := by omega
  rw [if_neg hH'] at b
  rw [if_pos hM] at c
  simp only [bucketStart, truncateNow, a, b, c, hH, hM, if_true, lt_self_iff_false, if_false,
    gt_iff_lt]
  exact timeZero_minute now hfix

/-- Under a minute: the bucket start is the start of the second of `now`. -/
theorem bucketStart_second (d : Int) (now : Time) (hfix : now.loc.tx = []) (h1 : Second ≤ d)
    (h2 : d < 2 ^ 63) (hM : d / Minute = 0) :
    bucketStart d now = { sec := now.sec, nsec := 0, loc := now.loc } := by
  obtain ⟨a, b, c⟩ := parseUnits_String d h1 h2
  have hH : d / Hour = 0 := by simp only [Hour, Minute, Second] at hM h1 ⊢; omega
  have hH' : ¬ d / Hour > 0 := by omega
  have hM' : ¬ d / Minute > 0 := by omega
  have hS : d / Second > 0 := by simp only [Second] at h1 ⊢; omega
  rw [if_neg hH'] at b
  rw [if_neg hM'] at c
  simp only [bucketStart, truncateNow, a, b, c, hH, hM, hS, if_true, lt_self_iff_false, if_false,
    gt_iff_lt]
  exact timeZero_second now hfix

/-! ## `getLogFileName`, branch by branch -/

/-- The rotating branch of `getLogFileName` (interval of at least one second). -/
theorem getLogFileName_rotating (format : Time → String → String) (l : log) (now : Time)
    (h : Second ≤ l.d) :
    getLogFileName format l now =
      if (bucketStart l.d now).sec - l.create.sec ≥ l.d / Second then
        ((fileNameFormat l.logName (format (bucketStart l.d now) l.layout), true),
          { l with create := bucketStart l.d now })
      else ((fileNameFormat l.logName (format l.create l.layout), false), l) := by
  have h' : ¬ l.d < Second := not_lt.2 h
  simp only [getLogFileName, h', if_false, Time.Unix]

/-- The branch of `getLogFileName` for an interval under one second. -/
theorem getLogFileName_disabled (format : Time → String → String) (l : log) (now : Time)
    (h : l.d < Second) :
    getLogFileName format l now =
      ((fileNameFormat l.logName
          (format (timeZero (if l.create.IsZero then now else l.create) []) l.layout), false),
        { l with create := if l.create.IsZero then now else l.create }) := by
  simp only [getLogFileName, h, if_true]
  by_cases hz : l.create.IsZero = true
  · simp [hz]
  · simp [hz]

/-- After a rotating call the state differs from the one before only in `create`, which holds
the bucket start of that call. -/
theorem state_after_rotation (format : Time → String → String) (l : log) (now : Time)
    (h : Second ≤ l.d) (hrot : (getLogFileName format l now).1.2 = true) :
    getLogFileName format l now =
      ((fileNameFormat l.logName (format (bucketStart l.d now) l.layout), true),
        { l with create := bucketStart l.d now }) := by
  rw [getLogFileName_rotating format l now h] at hrot ⊢
  by_cases hc : (bucketStart l.d now).sec - l.create.sec ≥ l.d / Second
  · rw [if_pos hc]
  · rw [if_neg hc] at hrot
    simp at hrot

/-- In a location without transitions the minute and second steps of `getLogFileName` do
nothing after the hour step. -/
theorem truncateNow_hour_first (h m s : Int) (now : Time) (hfix : now.loc.tx = [])
    (hh : h > 0) :
    truncateNow h m s now =
      (if h % 24 = 0 then timeZero now [] else timeZero now [now.Day, now.Hour]) := by
  have e : truncateNow h m s now = truncateNow 0 m s
      (if h % 24 = 0 then timeZero now [] else timeZero now [now.Day, now.Hour]) := by
    simp only [truncateNow, hh, if_true, lt_self_iff_false, if_false, gt_iff_lt]
  rw [e]
  by_cases h24 : h % 24 = 0
  · rw [if_pos h24, timeZero_nil now hfix]
    refine truncateNow_zero_of_aligned_fields m s _ now.loc hfix ?_
    simp only [Time.abs, off_fixed now hfix]
    omega
  · rw [if_neg h24, timeZero_dayHour now hfix]
    refine truncateNow_zero_of_aligned_fields m s _ now.loc hfix ?_
    simp only [Time.abs, off_fixed now hfix]
    omega

/-- In a location without transitions the second step of `getLogFileName` does nothing after the
minute step. -/
theorem truncateNow_minute_first (m s : Int) (now : Time) (hfix : now.loc.tx = [])
    (hm : m > 0) :
    truncateNow 0 m s now = timeZero now [now.Hour, now.Minute] := by
  have e : truncateNow 0 m s now = truncateNow 0 0 s (timeZero now [now.Hour, now.Minute]) := by
    simp only [truncateNow, hm, if_true, lt_self_iff_false, if_false, gt_iff_lt]
  rw [e, timeZero_minute now hfix]
  refine truncateNow_zero_of_aligned_fields 0 s _ now.loc hfix ?_
  simp only [Time.abs, off_fixed now hfix]
  omega

/-- In a location without transitions the arithmetic decomposition leads to the bucket start of
the code. (Stated for whole seconds, the durations whose text has no decimal point.) -/
theorem bucketStartArith_eq (d : Int) (now : Time) (hfix : now.loc.tx = []) (h1 : Second ≤ d)
    (h2 : d < 2 ^ 63) (_hw : d % Second = 0) : bucketStart d now = bucketStartArith d now := by
  simp only [bucketStartArith, unitsArith]
  by_cases hH : d / Hour > 0
  · rw [truncateNow_hour_first _ _ _ _ hfix hH]
    by_cases h24 : d / Hour % 24 = 0
    · rw [if_pos h24, bucketStart_day d now hfix h1 h2 hH h24, timeZero_nil now hfix]
    · rw [if_neg h24, bucketStart_hour d now hfix h1 h2 hH h24, timeZero_dayHour now hfix]
  · have hH0 : d / Hour = 0 := by
      simp only [Hour, Second] at hH h1 ⊢; omega
    rw [hH0]
    by_cases hM : d / Minute > 0
    · have hM' : d % Hour / Minute > 0 := by
        simp only [Hour, Minute, Second] at hH0 hM h1 ⊢; omega
      rw [truncateNow_minute_first _ _ _ hfix hM', bucketStart_minute d now hfix h1 h2 hH0 hM,
        timeZero_minute now hfix]
    · have hM0 : d / Minute = 0 := by
        simp only [Hour, Minute, Second] at hM h1 ⊢; omega
      have hM' : d % Hour / Minute = 0 := by
        simp only [Hour, Minute, Second] at hH0 hM0 h1 ⊢; omega
      have hS : d % Minute / Second > 0 := by
        simp only [Hour, Minute, Second] at hH0 hM0 h1 ⊢; omega
      rw [hM', bucketStart_second d now hfix h1 h2 hM0]
      simp only [truncateNow, lt_self_iff_false, if_false, gt_iff_lt, hS, if_true]
      rw [timeZero_second now hfix]

/-! ## `Init` -/

/-- A call of `getLogFileName` changes nothing of the state but `create`, and names the file
after the log name and the layout of the state. -/
theorem getLogFileName_frame (format : Time → String → String) (l : log) (now : Time) :
    ∃ stamp cr : Time,
      (getLogFileName format l now).1.1 = fileNameFormat l.logName (format stamp l.layout) ∧
      (getLogFileName format l now).2 = { l with create := cr } := by
  by_cases hd : l.d < Second
  · rw [getLogFileName_disabled format l now hd]
    exact ⟨_, _, rfl, rfl⟩
  · rw [getLogFileName_rotating format l now (not_lt.1 hd)]
    split
    · exact ⟨_, _, rfl, rfl⟩
    · exact ⟨_, l.create, rfl, rfl⟩

/-- What `Init` leaves in the logger and in the caller's `Config`. -/
theorem Init_frame (format : Time → String → String)
    (build : ZapConfig → Int → Except String ZapLogger) (now : Time) (c : Config) :
    (Init format build now c).logger.d = c.D ∧
    (Init format build now c).logger.logName = c.LogName ∧
    (Init format build now c).logger.layout
      = (if c.OutputFile = true then (if c.Layout = "" then timeLayoutDefault else "")
          else "") ∧
    (Init format build now c).c
      = (if c.OutputFile = true then
          (if c.LogName = "" then { c with LogName := "logger" } else c) else c) ∧
    (c.OutputFile = true → ∃ stamp : Time,
      (Init format build now c).logger.config.OutputPaths
        = [c.LogPath ++ "/" ++ fileNameFormat c.LogName
            (format stamp (if c.Layout = "" then timeLayoutDefault else ""))]) ∧
    ((∃ z, build (Init format build now c).logger.config 1 = .ok z ∧
        (Init format build now c).err = none ∧ (Init format build now c).logger.logger = some z) ∨
     (∃ e, build (Init format build now c).logger.config 1 = .error e ∧
        (Init format build now c).err = some e ∧ (Init format build now c).logger.logger = none))
    := by
  have frame : ∀ lay : String, ∃ stamp cr : Time,
      (getLogFileName format
        { logger := none, config := productionConfig c.Level, logPath := c.LogPath,
          logName := c.LogName, outputFile := c.OutputFile, outputConsole := c.OutputConsole,
          create := zeroTime, d := c.D, layout := lay, callerSkip := 1 } now).1.1
        = fileNameFormat c.LogName (format stamp lay) ∧
      (getLogFileName format
        { logger := none, config := productionConfig c.Level, logPath := c.LogPath,
          logName := c.LogName, outputFile := c.OutputFile, outputConsole := c.OutputConsole,
          create := zeroTime, d := c.D, layout := lay, callerSkip := 1 } now).2
        = { logger := none, config := productionConfig c.Level, logPath := c.LogPath,
            logName := c.LogName, outputFile := c.OutputFile, outputConsole := c.OutputConsole,
            create := cr, d := c.D, layout := lay, callerSkip := 1 } := by
    intro lay
    obtain ⟨stamp, cr, e1, e2⟩ := getLogFileName_frame format
      { logger := none, config := productionConfig c.Level, logPath := c.LogPath,
        logName := c.LogName, outputFile := c.OutputFile, outputConsole := c.OutputConsole,
        create := zeroTime, d := c.D, layout := lay, callerSkip := 1 } now
    exact ⟨stamp, cr, e1, e2⟩
  by_cases hf : c.OutputFile = true
  · by_cases hn : c.LogName = "" <;> by_cases hl : c.Layout = ""
    · obtain ⟨stamp, cr, e1, e2⟩ := frame timeLayoutDefault
      simp only [Init, if_pos hf, if_pos hn, if_pos hl, e1, e2]
      cases hb : build _ _ with
      | ok z => exact ⟨rfl, rfl, rfl, rfl, fun _ => ⟨stamp, rfl⟩, Or.inl ⟨z, hb, rfl, rfl⟩⟩
      | error e => exact ⟨rfl, rfl, rfl, rfl, fun _ => ⟨stamp, rfl⟩, Or.inr ⟨e, hb, rfl, rfl⟩⟩
    · obtain ⟨stamp, cr, e1, e2⟩ := frame ""
      simp only [Init, if_pos hf, if_pos hn, if_neg hl, e1, e2]
      cases hb : build _ _ with
      | ok z => exact ⟨rfl, rfl, rfl, rfl, fun _ => ⟨stamp, rfl⟩, Or.inl ⟨z, hb, rfl, rfl⟩⟩
      | error e => exact ⟨rfl, rfl, rfl, rfl, fun _ => ⟨stamp, rfl⟩, Or.inr ⟨e, hb, rfl, rfl⟩⟩
    · obtain ⟨stamp, cr, e1, e2⟩ := frame timeLayoutDefault
      simp only [Init, if_pos hf, if_neg hn, if_pos hl, e1, e2]
      cases hb : build _ _ with
      | ok z => exact ⟨rfl, rfl, rfl, rfl, fun _ => ⟨stamp, rfl⟩, Or.inl ⟨z, hb, rfl, rfl⟩⟩
      | error e => exact ⟨rfl, rfl, rfl, rfl, fun _ => ⟨stamp, rfl⟩, Or.inr ⟨e, hb, rfl, rfl⟩⟩
    · obtain ⟨stamp, cr, e1, e2⟩ := frame ""
      simp only [Init, if_pos hf, if_neg hn, if_neg hl, e1, e2]
      cases hb : build _ _ with
      | ok z => exact ⟨rfl, rfl, rfl, rfl, fun _ => ⟨stamp, rfl⟩, Or.inl ⟨z, hb, rfl, rfl⟩⟩
      | error e => exact ⟨rfl, rfl, rfl, rfl, fun _ => ⟨stamp, rfl⟩, Or.inr ⟨e, hb, rfl, rfl⟩⟩
  · simp only [Init, if_neg hf]
    cases hb : build _ _ with
    | ok z => exact ⟨rfl, rfl, rfl, rfl, fun h => absurd h hf, Or.inl ⟨z, hb, rfl, rfl⟩⟩
    | error e => exact ⟨rfl, rfl, rfl, rfl, fun h => absurd h hf, Or.inr ⟨e, hb, rfl, rfl⟩⟩

/-! ## The claims -/

/-- C1 (defect of the code): with the interval `1h` and the clock at `2024-03-01T15:42:10`, the
bucket start that `getLogFileName` computes, and stores on the first call, is
`2024-03-01T01:15:00`: its hour is the day of the month and its minute is the hour of `now`,
because `timeZero(now, now.Day(), now.Hour())` hands them to `time.Date` in those places. The
claim asks for `2024-03-01T15:00:00`. -/
theorem C1_hourly_bucket_takes_day_as_hour :
    exampleNow = Date 2024 3 1 15 42 10 0 UTC ∧
    bucketStart Hour exampleNow = Date 2024 3 1 1 15 0 0 UTC ∧
    (bucketStart Hour exampleNow).Hour = 1 ∧ exampleNow.Hour = 15 ∧
    (bucketStart Hour exampleNow).Minute = 15 ∧
    (getLogFileName exampleFormat (freshLog Hour "app" timeLayoutDefault) exampleNow).1.2 = true ∧
    (getLogFileName exampleFormat (freshLog Hour "app" timeLayoutDefault) exampleNow).2.create
      = Date 2024 3 1 1 15 0 0 UTC := by
  decide

/-- C10: for an interval of at least one second that is a whole number of seconds, and a
clock reading in a location with a fixed offset from UTC (no zone transition), the bucket start
that `getLogFileName` computes from the `h`, `m`, `s` it parses out of `d.String()` equals the
bucket start of the same truncation steps run with `h = d / 1h`, `m = (d mod 1h) / 1min`,
`s = (d mod 1min) / 1s`; so `getLogFileName` and its variant with the arithmetic decomposition
return the same file name, the same rotation flag and the same state. -/
theorem C10_parsed_units_refine_arithmetic (d : Int) (now : Time) (hfix : now.loc.tx = [])
    (h1 : Second ≤ d) (h2 : d < 2 ^ 63) (hw : d % Second = 0) :
    bucketStart d now = bucketStartArith d now ∧
    ∀ (format : Time → String → String) (l : log), l.d = d →
      getLogFileName format l now = getLogFileNameArith format l now := by
  have hb := bucketStartArith_eq d now hfix h1 h2 hw
  refine ⟨hb, ?_⟩
  intro format l hl
  subst hl
  simp only [getLogFileName, getLogFileNameArith, hb]

/-- C10, for `d = 1h30m` and `now = 2024-03-01T15:42:10` in UTC: the parsed units are
`1, 0, 0`, the arithmetic ones `1, 30, 0`, and both lead to the same bucket start. -/
theorem C10_parsed_units_example :
    (exampleNow.loc.tx = [] ∧ Second ≤ 5400 * Second ∧ 5400 * Second < 2 ^ 63 ∧
      5400 * Second % Second = 0) ∧
    (parseUnits (Duration.String (5400 * Second))).m = 0 ∧
    (unitsArith (5400 * Second)).m = 30 ∧
    (bucketStart (5400 * Second) exampleNow = bucketStartArith (5400 * Second) exampleNow ∧
     ∀ (format : Time → String → String) (l : log), l.d = 5400 * Second →
      getLogFileName format l exampleNow = getLogFileNameArith format l exampleNow) :=
  ⟨by decide, by decide, by decide,
    C10_parsed_units_refine_arithmetic (5400 * Second) exampleNow (by decide) (by decide)
      (by decide) (by decide)⟩

/-- C2, as stated, fails: interval `1m30s`, a fresh state, first call at `2024-03-01T12:00:10`
(it rotates and stores the bucket start `12:00:00`), second call at `12:01:45`. Then
`t2 - lastBucketStart = 105s ≥ 90s`, yet the bucket start of `t2` is `12:01:00`, only 60 seconds
after the stored one, and the call returns `rotated = false`. -/
theorem C2_no_rotation_after_ninety_seconds :
    (getLogFileName exampleFormat (freshLog (90 * Second) "app" timeLayoutDefault)
      (Date 2024 3 1 12 0 10 0 UTC)).1.2 = true ∧
    (getLogFileName exampleFormat (freshLog (90 * Second) "app" timeLayoutDefault)
      (Date 2024 3 1 12 0 10 0 UTC)).2.create = Date 2024 3 1 12 0 0 0 UTC ∧
    Time.Sub (Date 2024 3 1 12 1 45 0 UTC)
      (getLogFileName exampleFormat (freshLog (90 * Second) "app" timeLayoutDefault)
        (Date 2024 3 1 12 0 10 0 UTC)).2.create ≥ 90 * Second ∧
    (getLogFileName exampleFormat
      (getLogFileName exampleFormat (freshLog (90 * Second) "app" timeLayoutDefault)
        (Date 2024 3 1 12 0 10 0 UTC)).2
      (Date 2024 3 1 12 1 45 0 UTC)).1.2 = false := by
  decide

/-- C2, amended: take an interval `d ≥ 1s` that is a whole number of seconds under one minute,
or a whole number of minutes under one hour, or a whole multiple of 24 hours; clock readings in
one location with a fixed offset from UTC (no zone transition); a state left by a rotating call
at `t1`; and a later clock reading `t2` with `t2 - lastBucketStart ≥ d`. Then `getLogFileName`
at `t2` returns `rotated = true`, stores the bucket start of `t2`, and that new bucket start is
at least `d` after the old one. -/
theorem C2_rotation_fires_on_aligned_intervals (format : Time → String → String) (l0 : log)
    (t1 t2 : Time) (h1 : Second ≤ l0.d) (h2 : l0.d < 2 ^ 63)
    (hal : (l0.d / Minute = 0 ∧ l0.d % Second = 0) ∨ (l0.d / Hour = 0 ∧ l0.d % Minute = 0) ∨
      l0.d % (24 * Hour) = 0)
    (hv2 : t2.Valid) (hfix : t1.loc.tx = []) (hloc : t2.loc = t1.loc)
    (hrot : (getLogFileName format l0 t1).1.2 = true)
    (hel : Time.Sub t2 (getLogFileName format l0 t1).2.create ≥ l0.d) :
    (getLogFileName format (getLogFileName format l0 t1).2 t2).1.2 = true ∧
    (getLogFileName format (getLogFileName format l0 t1).2 t2).2.create
      = bucketStart l0.d t2 ∧
    Time.Sub (getLogFileName format (getLogFileName format l0 t1).2 t2).2.create
      (getLogFileName format l0 t1).2.create ≥ l0.d := by
  rw [state_after_rotation format l0 t1 h1 hrot] at hel ⊢
  simp only at hel ⊢
  have hfix2 : t2.loc.tx = [] := by rw [hloc]; exact hfix
  have ho1 := off_fixed t1 hfix
  have ho2 : t2.off = t1.loc.base := by rw [off_fixed t2 hfix2, hloc]
  have hcond : (bucketStart l0.d t2).sec - (bucketStart l0.d t1).sec ≥ l0.d / Second ∧
      Time.Sub (bucketStart l0.d t2) (bucketStart l0.d t1) ≥ l0.d := by
    obtain ⟨hv2a, hv2b⟩ := hv2
    rcases hal with ⟨hA, hw⟩ | ⟨hB1, hB2⟩ | hC
    · rw [bucketStart_second l0.d t1 hfix h1 h2 hA] at hel
      rw [bucketStart_second l0.d t1 hfix h1 h2 hA, bucketStart_second l0.d t2 hfix2 h1 h2 hA]
      simp only [Time.Sub, Second] at hel hw h1 ⊢
      omega
    · have hM : l0.d / Minute > 0 := by simp only [Minute, Second] at hB2 h1 ⊢; omega
      rw [bucketStart_minute l0.d t1 hfix h1 h2 hB1 hM] at hel
      rw [bucketStart_minute l0.d t1 hfix h1 h2 hB1 hM,
        bucketStart_minute l0.d t2 hfix2 h1 h2 hB1 hM]
      simp only [Time.Sub, Second, Minute, Time.abs, ho1, ho2] at hel hB2 h1 ⊢
      omega
    · have hH : l0.d / Hour > 0 := by simp only [Hour, Second] at hC h1 ⊢; omega
      have h24 : l0.d / Hour % 24 = 0 := by simp only [Hour] at hC ⊢; omega
      rw [bucketStart_day l0.d t1 hfix h1 h2 hH h24] at hel
      rw [bucketStart_day l0.d t1 hfix h1 h2 hH h24,
        bucketStart_day l0.d t2 hfix2 h1 h2 hH h24]
      simp only [Time.Sub, Second, Hour, Time.abs, ho1, ho2] at hel hC h1 ⊢
      omega
  have hg := getLogFileName_rotating format { l0 with create := bucketStart l0.d t1 } t2 h1
  simp only at hg
  rw [if_pos hcond.1] at hg
  rw [hg]
  exact ⟨rfl, rfl, hcond.2⟩

/-- C2 amended, at the interval `1m` in UTC: a fresh state, a first call at
`2024-03-01T12:00:10` and a second one at `12:01:45`, which is 105 seconds after the stored
bucket start `12:00:00`. -/
theorem C2_rotation_fires_example :
    (getLogFileName exampleFormat
      (getLogFileName exampleFormat (freshLog Minute "app" timeLayoutDefault)
        (Date 2024 3 1 12 0 10 0 UTC)).2
      (Date 2024 3 1 12 1 45 0 UTC)).1.2 = true ∧
    (getLogFileName exampleFormat
      (getLogFileName exampleFormat (freshLog Minute "app" timeLayoutDefault)
        (Date 2024 3 1 12 0 10 0 UTC)).2
      (Date 2024 3 1 12 1 45 0 UTC)).2.create
      = bucketStart (freshLog Minute "app" timeLayoutDefault).d (Date 2024 3 1 12 1 45 0 UTC) ∧
    Time.Sub (getLogFileName exampleFormat
        (getLogFileName exampleFormat (freshLog Minute "app" timeLayoutDefault)
          (Date 2024 3 1 12 0 10 0 UTC)).2
        (Date 2024 3 1 12 1 45 0 UTC)).2.create
      (getLogFileName exampleFormat (freshLog Minute "app" timeLayoutDefault)
        (Date 2024 3 1 12 0 10 0 UTC)).2.create
      ≥ (freshLog Minute "app" timeLayoutDefault).d :=
  C2_rotation_fires_on_aligned_intervals exampleFormat (freshLog Minute "app" timeLayoutDefault)
    (Date 2024 3 1 12 0 10 0 UTC) (Date 2024 3 1 12 1 45 0 UTC) (by decide) (by decide)
    (by decide) (by decide) (by decide) (by decide) (by decide) (by decide)

/-- C3, as stated, fails: interval `1.5s`, a fresh state, first call at
`2024-03-01T15:42:10.0` in UTC (it rotates and stores that instant), second call 1.2 seconds
later. Then `t1 ≤ t2` and `t2 - lastBucketStart = 1.2s < 1.5s`, yet the call returns
`rotated = true`: elapsed time is compared in whole seconds, `1 ≥ 1`. -/
theorem C3_rotation_inside_fractional_interval :
    Second ≤ (1500000000 : Int) ∧
    (getLogFileName exampleFormat (freshLog 1500000000 "app" timeLayoutDefault)
      exampleNow).1.2 = true ∧
    (getLogFileName exampleFormat (freshLog 1500000000 "app" timeLayoutDefault)
      exampleNow).2.create = exampleNow ∧
    Time.Sub { exampleNow with sec := exampleNow.sec + 1, nsec := 200000000 } exampleNow ≥ 0 ∧
    Time.Sub { exampleNow with sec := exampleNow.sec + 1, nsec := 200000000 }
      (getLogFileName exampleFormat (freshLog 1500000000 "app" timeLayoutDefault)
        exampleNow).2.create < 1500000000 ∧
    (getLogFileName exampleFormat
      (getLogFileName exampleFormat (freshLog 1500000000 "app" timeLayoutDefault)
        exampleNow).2
      { exampleNow with sec := exampleNow.sec + 1, nsec := 200000000 }).1.2 = true := by
  decide

/-- C3, amended: take an interval `d ≥ 1s` that is a whole number of seconds and whose
whole-hour count is a multiple of 24 (zero included, so every interval under one hour); clock
readings in locations with a fixed offset from UTC (no zone transition); a state left by a
rotating call at `t1`; and a clock reading `t2` with `t2 - lastBucketStart < d`. Then
`getLogFileName` at `t2` returns `rotated = false`, the file name of the previous call, and
leaves the state as it was. -/
theorem C3_no_rotation_inside_whole_second_interval (format : Time → String → String)
    (l0 : log) (t1 t2 : Time) (h1 : Second ≤ l0.d) (h2 : l0.d < 2 ^ 63)
    (hw : l0.d % Second = 0) (hh : l0.d / Hour % 24 = 0) (hv2 : t2.Valid)
    (hfix1 : t1.loc.tx = []) (hfix2 : t2.loc.tx = [])
    (hrot : (getLogFileName format l0 t1).1.2 = true)
    (hel : Time.Sub t2 (getLogFileName format l0 t1).2.create < l0.d) :
    getLogFileName format (getLogFileName format l0 t1).2 t2 =
      (((getLogFileName format l0 t1).1.1, false), (getLogFileName format l0 t1).2) := by
  rw [state_after_rotation format l0 t1 h1 hrot] at hel ⊢
  simp only at hel ⊢
  have hcond : ¬ (bucketStart l0.d t2).sec - (bucketStart l0.d t1).sec ≥ l0.d / Second := by
    obtain ⟨hv2a, hv2b⟩ := hv2
    by_cases hH : l0.d / Hour > 0
    · have h24 : l0.d / Hour % 24 = 0 := hh
      rw [bucketStart_day l0.d t1 hfix1 h1 h2 hH h24] at hel
      rw [bucketStart_day l0.d t1 hfix1 h1 h2 hH h24,
        bucketStart_day l0.d t2 hfix2 h1 h2 hH h24]
      simp only [Time.Sub, Second] at hel hw h1 ⊢
      omega
    · have hH0 : l0.d / Hour = 0 := by simp only [Hour, Second] at hH h1 ⊢; omega
      by_cases hM : l0.d / Minute > 0
      · rw [bucketStart_minute l0.d t1 hfix1 h1 h2 hH0 hM] at hel
        rw [bucketStart_minute l0.d t1 hfix1 h1 h2 hH0 hM,
          bucketStart_minute l0.d t2 hfix2 h1 h2 hH0 hM]
        simp only [Time.Sub, Second] at hel hw h1 ⊢
        omega
      · have hM0 : l0.d / Minute = 0 := by simp only [Minute, Second] at hM h1 ⊢; omega
        rw [bucketStart_second l0.d t1 hfix1 h1 h2 hM0] at hel
        rw [bucketStart_second l0.d t1 hfix1 h1 h2 hM0,
          bucketStart_second l0.d t2 hfix2 h1 h2 hM0]
        simp only [Time.Sub, Second] at hel hw h1 ⊢
        omega
  have hg := getLogFileName_rotating format { l0 with create := bucketStart l0.d t1 } t2 h1
  simp only at hg
  rw [if_neg hcond] at hg
  rw [hg]

/-- C3 amended, at the interval `1m30s` in UTC: a fresh state, a first call at
`2024-03-01T12:00:10` and a second one at `12:01:15`, 75 seconds after the stored bucket start
`12:00:00`. -/
theorem C3_no_rotation_inside_example :
    Time.Sub (Date 2024 3 1 12 1 15 0 UTC)
      (getLogFileName exampleFormat (freshLog (90 * Second) "app" timeLayoutDefault)
        (Date 2024 3 1 12 0 10 0 UTC)).2.create = 75 * Second ∧
    getLogFileName exampleFormat
      (getLogFileName exampleFormat (freshLog (90 * Second) "app" timeLayoutDefault)
        (Date 2024 3 1 12 0 10 0 UTC)).2
      (Date 2024 3 1 12 1 15 0 UTC) =
    (((getLogFileName exampleFormat (freshLog (90 * Second) "app" timeLayoutDefault)
        (Date 2024 3 1 12 0 10 0 UTC)).1.1, false),
      (getLogFileName exampleFormat (freshLog (90 * Second) "app" timeLayoutDefault)
        (Date 2024 3 1 12 0 10 0 UTC)).2) :=
  ⟨by decide,
    C3_no_rotation_inside_whole_second_interval exampleFormat
      (freshLog (90 * Second) "app" timeLayoutDefault)
      (Date 2024 3 1 12 0 10 0 UTC) (Date 2024 3 1 12 1 15 0 UTC) (by decide) (by decide)
      (by decide) (by decide) (by decide) (by decide) (by decide) (by decide) (by decide)⟩

/-- C6 (defect of the code): `Info` writes through the field `logger.logger` without calling
`getLogger`. In the example the logger was built at `15:42:10` with a one-minute interval and
the clock now stands at `17:42:10`, so a rotation is due: `check` rotates to the file of the
bucket `17:42:00`, and `Print` writes through the rebuilt handle, while `Info` writes through
the stale handle of the bucket `15:42:00` and leaves the rotation state untouched. -/
theorem C6_Info_skips_rotation_check :
    exampleWorld.l.outputFile = true ∧ Second ≤ exampleWorld.l.d ∧
    exampleWorld.l.logger
      = some { paths := ["/var/log/app.20060102150405@1709307720.log"], callerSkip := 1 } ∧
    (getLogFileName exampleEnv.format exampleWorld.l (exampleEnv.clock 0)).1
      = ("app.20060102150405@1709314920.log", true) ∧
    Print exampleEnv 2 "hello" exampleWorld =
      some (.ok
        { handle := { paths := ["/var/log/app.20060102150405@1709314920.log"], callerSkip := 1 },
          level := Level.Info, msg := "hello" }
        { l := { exampleWorld.l with
                  logger := some { paths := ["/var/log/app.20060102150405@1709314920.log"],
                                   callerSkip := 1 },
                  config := { exampleWorld.l.config with
                    OutputPaths := ["/var/log/app.20060102150405@1709314920.log"] },
                  create := { sec := 1709314920, nsec := 0, loc := UTC } },
          tick := 3 }) ∧
    Info exampleEnv 2 "hello" exampleWorld =
      some (.ok
        { handle := { paths := ["/var/log/app.20060102150405@1709307720.log"], callerSkip := 1 },
          level := Level.Info, msg := "hello" }
        exampleWorld) := by
  decide

/-- C7 (defect of the code): `Init` never copies `Config.Layout` into the logger. With file
output and a non-empty `Config.Layout`, the layout held by the logger after `Init`, which
`getLogFileName` formats every file name with, is the empty string, not `Config.Layout`. -/
theorem C7_configured_layout_is_dropped (format : Time → String → String)
    (build : ZapConfig → Int → Except String ZapLogger) (now : Time) (c : Config)
    (hf : c.OutputFile = true) (hl : c.Layout ≠ "") :
    (Init format build now c).logger.layout = "" ∧
    (Init format build now c).logger.layout ≠ c.Layout ∧
    ∀ t : Time, ∃ stamp : Time,
      (getLogFileName format (Init format build now c).logger t).1.1
        = fileNameFormat c.LogName (format stamp "") := by
  obtain ⟨_, hname, hlay, _, _, _⟩ := Init_frame format build now c
  rw [if_pos hf, if_neg hl] at hlay
  refine ⟨hlay, ?_, ?_⟩
  · rw [hlay]; exact fun h => hl h.symm
  · intro t
    obtain ⟨stamp, _, e1, _⟩ := getLogFileName_frame format (Init format build now c).logger t
    rw [hname, hlay] at e1
    exact ⟨stamp, e1⟩

/-- C7, at `Config{LogPath: "/var/log", LogName: "app", OutputFile: true, D: time.Hour,
Layout: "2006-01-02"}`. -/
theorem C7_configured_layout_example :
    (Init exampleFormat exampleBuild exampleNow
      { LogPath := "/var/log", LogName := "app", Level := 0, OutputFile := true,
        OutputConsole := false, D := Hour, Layout := "2006-01-02" }).logger.layout = "" :=
  (C7_configured_layout_is_dropped exampleFormat exampleBuild exampleNow
    { LogPath := "/var/log", LogName := "app", Level := 0, OutputFile := true,
      OutputConsole := false, D := Hour, Layout := "2006-01-02" } (by decide) (by decide)).1

/-- C8 (defect of the code): `Init` copies `Config.LogName` into the logger before it replaces
an empty name by `"logger"` in the `Config`. With file output and an empty `LogName`, the logger
keeps the empty name: the output path that `Init` sets and every file name that `getLogFileName`
returns afterwards have the form `".<timestamp>.log"`, while `"logger"` only reaches the
caller's `Config`. -/
theorem C8_empty_log_name_stays_empty (format : Time → String → String)
    (build : ZapConfig → Int → Except String ZapLogger) (now : Time) (c : Config)
    (hf : c.OutputFile = true) (hn : c.LogName = "") :
    (Init format build now c).logger.logName = "" ∧
    (Init format build now c).c.LogName = "logger" ∧
    (∃ stamp : String, (Init format build now c).logger.config.OutputPaths
        = [c.LogPath ++ "/" ++ ("" ++ "." ++ stamp ++ ".log")]) ∧
    ∀ t : Time, ∃ stamp : String,
      (getLogFileName format (Init format build now c).logger t).1.1
        = "" ++ "." ++ stamp ++ ".log" := by
  obtain ⟨_, hname, _, hc, hpath, _⟩ := Init_frame format build now c
  rw [hn] at hname
  rw [if_pos hf, if_pos hn] at hc
  refine ⟨hname, ?_, ?_, ?_⟩
  · rw [hc]
  · obtain ⟨stamp, hp⟩ := hpath hf
    rw [hn] at hp
    exact ⟨_, hp⟩
  · intro t
    obtain ⟨stamp, _, e1, _⟩ := getLogFileName_frame format (Init format build now c).logger t
    rw [hname] at e1
    exact ⟨_, e1⟩

/-- C8, at `Config{LogPath: "/var/log", LogName: "", OutputFile: true, D: 24 * time.Hour}`: the
output path is `/var/log/.<timestamp>.log`. -/
theorem C8_empty_log_name_example :
    (Init exampleFormat exampleBuild exampleNow
      { LogPath := "/var/log", LogName := "", Level := 0, OutputFile := true,
        OutputConsole := false, D := 24 * Hour, Layout := "" }).logger.config.OutputPaths
      = ["/var/log/.20060102150405@1709251200.log"] ∧
    (Init exampleFormat exampleBuild exampleNow
      { LogPath := "/var/log", LogName := "", Level := 0, OutputFile := true,
        OutputConsole := false, D := 24 * Hour, Layout := "" }).logger.logName = "" :=
  ⟨by decide,
    (C8_empty_log_name_stays_empty exampleFormat exampleBuild exampleNow
      { LogPath := "/var/log", LogName := "", Level := 0, OutputFile := true,
        OutputConsole := false, D := 24 * Hour, Layout := "" } (by decide) (by decide)).1⟩

/-- C9, as stated, fails: `Init` on a `Config` with `D = -1ns` and a sink that builds returns a
nil error and stores a logger handle. -/
theorem C9_negative_interval_is_accepted :
    (Init exampleFormat exampleBuild exampleNow
      { LogPath := "/var/log", LogName := "app", Level := 0, OutputFile := true,
        OutputConsole := false, D := -1, Layout := "" }).err = none ∧
    (Init exampleFormat exampleBuild exampleNow
      { LogPath := "/var/log", LogName := "app", Level := 0, OutputFile := true,
        OutputConsole := false, D := -1, Layout := "" }).logger.logger
      = some { paths := ["/var/log/app.20060102150405@1709251200.log"], callerSkip := 1 } := by
  decide

/-- C9, amended: `Init` does not look at the sign of the interval. For a `Config` with `D < 0`
the error it returns is the error of building the sink and nothing else (nil when the build
succeeds, and then the built handle is stored); the logger keeps the negative interval, for which
`getLogFileName` never rotates. -/
theorem C9_negative_interval_only_build_can_fail (format : Time → String → String)
    (build : ZapConfig → Int → Except String ZapLogger) (now : Time) (c : Config)
    (hD : c.D < 0) :
    (Init format build now c).logger.d = c.D ∧
    (∀ t : Time, (getLogFileName format (Init format build now c).logger t).1.2 = false) ∧
    (∀ z, build (Init format build now c).logger.config 1 = .ok z →
      (Init format build now c).err = none ∧ (Init format build now c).logger.logger = some z) ∧
    (∀ e, build (Init format build now c).logger.config 1 = .error e →
      (Init format build now c).err = some e ∧ (Init format build now c).logger.logger = none)
    := by
  have hd : c.D < Second := by simp only [Second]; omega
  obtain ⟨hdd, _, _, _, _, hb⟩ := Init_frame format build now c
  refine ⟨hdd, ?_, ?_, ?_⟩
  · intro t
    rw [getLogFileName_disabled format _ t (by rw [hdd]; exact hd)]
  · intro z hz
    rcases hb with ⟨z', h1, h2, h3⟩ | ⟨e, h1, _, _⟩
    · rw [h1] at hz
      cases hz
      exact ⟨h2, h3⟩
    · rw [h1] at hz
      cases hz
  · intro e he
    rcases hb with ⟨z, h1, _, _⟩ | ⟨e', h1, h2, h3⟩
    · rw [h1] at he
      cases he
    · rw [h1] at he
      cases he
      exact ⟨h2, h3⟩

/-- C9 amended, at `D = -1ns` with a sink that builds. -/
theorem C9_negative_interval_example :
    (Init exampleFormat exampleBuild exampleNow
      { LogPath := "/var/log", LogName := "app", Level := 0, OutputFile := true,
        OutputConsole := false, D := -1, Layout := "" }).logger.d = -1 :=
  (C9_negative_interval_only_build_can_fail exampleFormat exampleBuild exampleNow
    { LogPath := "/var/log", LogName := "app", Level := 0, OutputFile := true,
      OutputConsole := false, D := -1, Layout := "" } (by decide)).1

end LoggerGo
